import Mathlib

/-! Books API (`src/server.js`): embedding and checked properties.

The service keeps one process-wide array `books` and registers eleven Express
routes on it.  Each route handler is embedded as a pure function from the store
(and the request data it reads) to a response and the next store; the Express
router is embedded as a first-match search through the routes in registration
order.

Scope of the embedding:

* Every number the list operation computes is an integer-valued double, `NaN` or
  an infinity: these are the values of `JsNum`, with IEEE rounding to 53
  significant bits.  Ids are natural numbers (`id + 1` is exact below `2^53`);
  non-integer JSON numbers are outside the embedding.
* A JavaScript array has fewer than `2^32` elements; theorems that depend on the
  length being an exact double say so.
* Query parameters are strings or absent (repeated or nested query keys, which
  Express delivers as arrays or objects, are outside the embedding).
* `String.prototype.toLowerCase`, `String.prototype.localeCompare`, the string
  conversion that built-ins apply to their arguments, the clock behind
  `new Date()` and `Math.random()` are supplied by the JavaScript runtime; they
  are taken as the fields of `Runtime`.
* `Array.prototype.sort` is that of V8 (Node), which calls the comparator with
  the later of two elements as the receiver.
* A handler that throws (a method call on a value that has no such method) is
  answered by Express with status 500; the store is left as it was.
-/

namespace BooksApi

/-! ## Values, records, requests and responses -/

/-- A JSON value as it arrives in a request body and as it is stored in a record.
Arrays and objects are carried by their JSON text; they are always truthy and
have no string methods. -/
inductive JVal where
  | null
  | bool (b : Bool)
  | num (n : Int)
  | str (s : String)
  | composite (json : String)
  deriving DecidableEq

/-- JavaScript truthiness of a JSON value (`if (v)`, `!v`, `filter(b => v)`). -/
def JVal.truthy : JVal → Bool
  | .null => false
  | .bool b => b
  | .num n => n != 0
  | .str s => s != ""
  | .composite _ => true

/-- One record of the `books` array.  `createdAt` is the clock reading taken by
`new Date()`. -/
structure Book where
  id : Nat
  title : JVal
  author : JVal
  createdAt : Nat
  isFavorite : JVal
  status : JVal
  deriving DecidableEq

/-- A non-negative double given by a significand and a binary exponent: the
number `mant / 2 ^ exp`. -/
structure Dyadic where
  mant : Nat
  exp : Nat
  deriving DecidableEq

/-- What the JavaScript runtime supplies while one request is handled.  `toText`
is the conversion to a string (`ToString`) that a built-in applies to an argument
that is not a string; `random` is the value returned by `Math.random()`. -/
structure Runtime where
  toLowerCase : String → String
  localeCompare : String → String → Int
  toText : JVal → String
  now : Nat
  random : Dyadic

/-- An integer-valued JavaScript number (an IEEE double): `NaN`, an infinity, or a
finite integer.  The two zeros are one value here: the program never tells them
apart.  In a JSON response `NaN` and the infinities are written `null`. -/
inductive JsNum where
  | nan
  | posInf
  | negInf
  | fin (n : Int)
  deriving DecidableEq

instance (n : Nat) : OfNat JsNum n := ⟨.fin n⟩

instance : Coe Nat JsNum := ⟨fun n => .fin n⟩

/-- The keys of `req.query` that the handlers read. -/
structure Query where
  sortBy : Option String := none
  page : Option String := none
  limit : Option String := none
  favorite : Option String := none
  status : Option String := none
  query : Option String := none
  deriving DecidableEq

/-- The keys of `req.body` that the handlers read; `none` is a missing key
(`undefined`). -/
structure ReqBody where
  title : Option JVal := none
  author : Option JVal := none
  isFavorite : Option JVal := none
  status : Option JVal := none
  deriving DecidableEq

inductive Method where
  | GET | POST | PUT | PATCH | DELETE
  deriving DecidableEq

/-- An HTTP request: method, decoded path segments, query and JSON body. -/
structure Request where
  method : Method
  path : List String
  query : Query := {}
  body : ReqBody := {}
  deriving DecidableEq

/-- The JSON payload of a response. -/
inductive Payload where
  /-- The payload `{ total, page, limit, data }` of the list operation. -/
  | listing (total : Nat) (page : JsNum) (limit : JsNum) (data : List Book)
  /-- A single record. -/
  | book (b : Book)
  /-- An array of records. -/
  | books (l : List Book)
  /-- The payload `{ total, favorites, completed, reading, unread }`. -/
  | stats (total favorites completed reading unread : Nat)
  /-- The payload `{ error }`. -/
  | error (msg : String)
  /-- The payload `{ message }`. -/
  | message (msg : String)
  /-- The payload `{ message, book }`. -/
  | messageBook (msg : String) (b : Book)
  /-- The payload of `res.json(undefined)`. -/
  | undefined
  /-- The handler threw a `TypeError`; Express answers with its error page. -/
  | typeError
  /-- No registered route matched; Express answers with its not-found page. -/
  | noRoute
  deriving DecidableEq

structure Response where
  status : Nat
  body : Payload
  deriving DecidableEq

/-- The initial value of `books` (lines 8-25); the two `new Date()` readings are
taken at start-up. -/
def seedBooks (t1 t2 : Nat) : List Book :=
  [ { id := 1, title := .str "1984", author := .str "George Orwell", createdAt := t1,
      isFavorite := .bool false, status := .str "unread" },
    { id := 2, title := .str "The Alchemist", author := .str "Paulo Coelho", createdAt := t2,
      isFavorite := .bool true, status := .str "completed" } ]

/-! ## JavaScript built-ins used by the handlers -/

/-- White space and line terminators skipped by `parseInt`. -/
def isWhiteSpace (c : Char) : Bool :=
  c.toNat ∈ [0x09, 0x0A, 0x0B, 0x0C, 0x0D, 0x20, 0xA0, 0x1680, 0x2028, 0x2029, 0x202F,
    0x205F, 0x3000, 0xFEFF] || (0x2000 ≤ c.toNat && c.toNat ≤ 0x200A)

/-- Value of an alphanumeric character as a digit (`0-9`, `a-z`, `A-Z`). -/
def digitValue (c : Char) : Option Nat :=
  let n := c.toNat
  if 48 ≤ n ∧ n ≤ 57 then some (n - 48)
  else if 97 ≤ n ∧ n ≤ 122 then some (n - 87)
  else if 65 ≤ n ∧ n ≤ 90 then some (n - 55)
  else none

/-- The digits of the longest prefix made of digits of the given radix. -/
def takeDigits (radix : Nat) : List Char → List Nat
  | [] => []
  | c :: cs =>
    match digitValue c with
    | some d => if d < radix then d :: takeDigits radix cs else []
    | none => []

def digitsValue (radix : Nat) (ds : List Nat) : Nat :=
  ds.foldl (fun acc d => acc * radix + d) 0

/-- Number of binary digits of `n`, by halving at most `fuel` times. -/
def bitLengthAux : Nat → Nat → Nat
  | 0, _ => 0
  | fuel + 1, n => if n = 0 then 0 else bitLengthAux fuel (n / 2) + 1

/-- Number of binary digits of `n` (`0` for `0`). -/
def bitLength (n : Nat) : Nat :=
  bitLengthAux n n

/-- Rounding of a natural number to the nearest one with at most 53 significant
bits, ties going to the even significand (IEEE round-to-nearest-even, before any
limit on the exponent). -/
def roundSig (n : Nat) : Nat :=
  if n < 2 ^ 53 then n
  else
    let e := bitLength n - 53
    let q := n / 2 ^ e
    let r := n % 2 ^ e
    if 2 ^ e < 2 * r ∨ (2 * r = 2 ^ e ∧ q % 2 = 1) then (q + 1) * 2 ^ e else q * 2 ^ e

/-- The double nearest to an integer; an infinity when the rounded magnitude
reaches `2 ^ 1024`, that is, has more than 1024 binary digits. -/
def JsNum.ofInt (n : Int) : JsNum :=
  if bitLength (roundSig n.natAbs) ≤ 1024 then
    .fin (if n < 0 then -(roundSig n.natAbs : Int) else (roundSig n.natAbs : Int))
  else if n < 0 then .negInf
  else .posInf

/-- The sum of two numbers, rounded to a double; adding zero changes nothing. -/
def JsNum.add : JsNum → JsNum → JsNum
  | .fin a, .fin b => if a = 0 then .fin b else if b = 0 then .fin a else JsNum.ofInt (a + b)
  | .nan, _ => .nan
  | _, .nan => .nan
  | .posInf, .negInf => .nan
  | .negInf, .posInf => .nan
  | .posInf, _ => .posInf
  | _, .posInf => .posInf
  | .negInf, _ => .negInf
  | _, .negInf => .negInf

/-- The difference of two numbers, rounded to a double. -/
def JsNum.sub : JsNum → JsNum → JsNum
  | a, .fin b => JsNum.add a (.fin (-b))
  | a, .posInf => JsNum.add a .negInf
  | a, .negInf => JsNum.add a .posInf
  | _, .nan => .nan

/-- An infinity times a finite number: `NaN` for zero, else the infinity with
the product's sign. -/
def JsNum.infTimes (positive : Bool) (b : Int) : JsNum :=
  if b = 0 then .nan
  else if (0 < b) = (positive = true) then .posInf
  else .negInf

/-- The product of two numbers, rounded to a double. -/
def JsNum.mul : JsNum → JsNum → JsNum
  | .fin a, .fin b => JsNum.ofInt (a * b)
  | .nan, _ => .nan
  | _, .nan => .nan
  | .posInf, .fin b => JsNum.infTimes true b
  | .negInf, .fin b => JsNum.infTimes false b
  | .fin a, .posInf => JsNum.infTimes true a
  | .fin a, .negInf => JsNum.infTimes false a
  | .posInf, .posInf => .posInf
  | .negInf, .negInf => .posInf
  | .posInf, .negInf => .negInf
  | .negInf, .posInf => .negInf

instance : Add JsNum := ⟨JsNum.add⟩

instance : Sub JsNum := ⟨JsNum.sub⟩

instance : Mul JsNum := ⟨JsNum.mul⟩

/-- The global `parseInt(string)` without a radix argument: leading white space
is skipped, a sign is read, a `0x`/`0X` prefix selects radix 16, and the longest
digit prefix is converted to the nearest double (as V8 does for numerals of any
length); without a digit the result is `NaN`. -/
def parseInt (s : String) : JsNum :=
  let cs := s.toList.dropWhile isWhiteSpace
  let signed : Bool × List Char :=
    match cs with
    | '-' :: r => (true, r)
    | '+' :: r => (false, r)
    | _ => (false, cs)
  let based : Nat × List Char :=
    match signed.2 with
    | '0' :: 'x' :: r => (16, r)
    | '0' :: 'X' :: r => (16, r)
    | _ => (10, signed.2)
  match takeDigits based.1 based.2 with
  | [] => .nan
  | d :: ds =>
    let v : Int := digitsValue based.1 (d :: ds)
    JsNum.ofInt (if signed.1 then -v else v)

/-- The call `parseInt(x)` on a query value that may be `undefined`
(`parseInt(undefined)` is `NaN`). -/
def parseIntArg (x : Option String) : JsNum :=
  match x with
  | some s => parseInt s
  | none => .nan

/-- The expression `n || d` for a number `n`: `NaN` and `0` are falsy. -/
def orDefault (n : JsNum) (d : JsNum) : JsNum :=
  match n with
  | .nan => d
  | .fin v => if v = 0 then d else .fin v
  | .posInf => .posInf
  | .negInf => .negInf

/-- Resolution of a relative index of `Array.prototype.slice`: `NaN` counts as
`0`, a negative index counts from the end, and the result is kept within the
array. -/
def clampIndex (len : Nat) (i : JsNum) : Nat :=
  match i with
  | .nan => 0
  | .negInf => 0
  | .posInf => len
  | .fin v => if v < 0 then ((len : Int) + v).toNat else min v.toNat len

/-- The call `arr.slice(start, stop)`. -/
def slice {α : Type} (l : List α) (start stop : JsNum) : List α :=
  let k := clampIndex l.length start
  let f := clampIndex l.length stop
  (l.drop k).take (f - k)

/-- The call `hay.includes(needle)` on strings, as lists of characters. -/
def includes (hay needle : List Char) : Bool :=
  match hay with
  | [] => needle.isEmpty
  | c :: cs => needle.isPrefixOf (c :: cs) || includes cs needle

/-- The call `arr.filter(p)` for a callback that may throw: `none` when some call
throws. -/
def filterThrowing {α : Type} (p : α → Option Bool) : List α → Option (List α)
  | [] => some []
  | a :: as =>
    match p a with
    | none => none
    | some keep =>
      match filterThrowing p as with
      | none => none
      | some rest => some (if keep then a :: rest else rest)

/-- The string under a sort key, paired with its record; `none` when the key is
not a string (it has no `localeCompare`). -/
def keyed (key : Book → JVal) (b : Book) : Option (String × Book) :=
  match key b with
  | .str s => some (s, b)
  | _ => none

/-- Every record paired with the string under its sort key; `none` when the key of
some record is not a string. -/
def keyedAll (key : Book → JVal) : List Book → Option (List (String × Book))
  | [] => some []
  | b :: bs =>
    match keyed key b, keyedAll key bs with
    | some p, some ps => some (p :: ps)
    | _, _ => none

/-- The string a built-in works with for an argument: the string itself, or the
runtime's conversion of a value that is not a string. -/
def argText (rt : Runtime) : JVal → String
  | .str s => s
  | v => rt.toText v

/-- The call `result.sort((a, b) => a[sortBy].localeCompare(b[sortBy]))` under V8.
V8 calls the comparator with the later of the two records as `a`, so the key of
every record after the first is at some call the receiver of `localeCompare` and
must be a string, or the call throws (`none`); the key of the first record is
only ever the argument, which `localeCompare` converts to a string.  When no call
throws, the result is the stable arrangement in comparator order.  (V8 sorts
arrays of fewer than 64 elements by binary insertion, for which this is exact;
on longer arrays V8 throws only if this embedding does.) -/
def sortByKey (rt : Runtime) (key : Book → JVal) : List Book → Option (List Book)
  | [] => some []
  | first :: rest =>
    match keyedAll key rest with
    | some ps =>
      some ((((argText rt (key first), first) :: ps).insertionSort
        (fun p q => rt.localeCompare p.1 q.1 ≤ 0)).map Prod.snd)
    | none => none

/-- Replace the first element satisfying `p` by its image under `f` (mutation of
the object returned by `Array.prototype.find`). -/
def modifyFirst {α : Type} (p : α → Bool) (f : α → α) : List α → List α
  | [] => []
  | a :: as => if p a then f a :: as else a :: modifyFirst p f as

/-! ## Route handlers -/

/-- The predicate `b => b.id === parseInt(req.params.id)`. -/
def idMatches (idParam : String) (b : Book) : Bool :=
  match parseInt idParam with
  | .fin n => decide ((b.id : Int) = n)
  | _ => false

def notFound : Response := ⟨404, .error "Book not found."⟩

/-- The filtered set of the list operation (lines 29-38): the favorite filter,
then the status filter. -/
def filteredSet (rt : Runtime) (books : List Book) (q : Query) : List Book :=
  let r1 := if q.favorite = some "true" then books.filter (fun b => b.isFavorite.truthy) else books
  match q.status with
  | some s =>
    if s ≠ "" then r1.filter (fun b => decide (b.status = JVal.str (rt.toLowerCase s))) else r1
  | none => r1

/-- The sort step of the list operation (lines 40-42). -/
def sortStep (rt : Runtime) (q : Query) (result : List Book) : Option (List Book) :=
  if q.sortBy = some "title" then sortByKey rt (fun b => b.title) result
  else if q.sortBy = some "author" then sortByKey rt (fun b => b.author) result
  else some result

/-- The value of `pageNum` (line 44). -/
def pageNum (q : Query) : JsNum :=
  orDefault (parseIntArg q.page) 1

/-- The value of `limitNum` (line 45). -/
def limitNum (q : Query) (result : List Book) : JsNum :=
  orDefault (parseIntArg q.limit) result.length

/-- Handler of `GET /books` (lines 28-56). -/
def listBooks (rt : Runtime) (books : List Book) (q : Query) : Response × List Book :=
  match sortStep rt q (filteredSet rt books q) with
  | none => (⟨500, .typeError⟩, books)
  | some result =>
    let start := (pageNum q - 1) * limitNum q result
    let stop := start + limitNum q result
    (⟨200, .listing result.length (pageNum q) (limitNum q result) (slice result start stop)⟩,
      books)

/-- Handler of `GET /books/:id` (lines 59-63). -/
def getBook (books : List Book) (idParam : String) : Response × List Book :=
  match books.find? (idMatches idParam) with
  | none => (notFound, books)
  | some book => (⟨200, .book book⟩, books)

/-- The test `field.toLowerCase().includes(query.toLowerCase())`; `none` when
`field` is not a string. -/
def includesLower (rt : Runtime) (field : JVal) (query : String) : Option Bool :=
  match field with
  | .str s => some (includes (rt.toLowerCase s).toList (rt.toLowerCase query).toList)
  | _ => none

/-- The search callback (lines 71-73); the author is examined only when the title
does not match. -/
def searchMatch (rt : Runtime) (query : String) (b : Book) : Option Bool :=
  match includesLower rt b.title query with
  | none => none
  | some true => some true
  | some false => includesLower rt b.author query

/-- Handler of `GET /books/search` (lines 66-76). -/
def searchBooks (rt : Runtime) (books : List Book) (q : Query) : Response × List Book :=
  match q.query with
  | none => (⟨400, .error "Query required."⟩, books)
  | some query =>
    if query = "" then (⟨400, .error "Query required."⟩, books)
    else
      match filterThrowing (searchMatch rt query) books with
      | none => (⟨500, .typeError⟩, books)
      | some result => (⟨200, .books result⟩, books)

/-- The index `Math.floor(Math.random() * books.length)` (line 81): the product of
the double `mant / 2 ^ exp` and the length is `mant * length / 2 ^ exp` rounded to
53 significant bits, and the index is its integer part. -/
def randomIndex (r : Dyadic) (length : Nat) : Nat :=
  roundSig (r.mant * length) / 2 ^ r.exp

/-- Handler of `GET /books/recommend` (lines 79-83). -/
def recommend (rt : Runtime) (books : List Book) : Response × List Book :=
  if books.length = 0 then (⟨404, .error "No books available."⟩, books)
  else
    match books.get? (randomIndex rt.random books.length) with
    | some b => (⟨200, .book b⟩, books)
    | none => (⟨200, .undefined⟩, books)

/-- Handler of `GET /books/stats` (lines 86-94). -/
def stats (books : List Book) : Response × List Book :=
  let total := books.length
  let favorites := (books.filter (fun b => b.isFavorite.truthy)).length
  let completed := (books.filter (fun b => decide (b.status = JVal.str "completed"))).length
  let unread := (books.filter (fun b => decide (b.status = JVal.str "unread"))).length
  let reading := (books.filter (fun b => decide (b.status = JVal.str "reading"))).length
  (⟨200, .stats total favorites completed reading unread⟩, books)

/-- The value of `!v` for a body key that may be missing. -/
def falsy (v : Option JVal) : Bool :=
  match v with
  | some x => !x.truthy
  | none => true

/-- The id given to a new record (line 102). -/
def nextId (books : List Book) : Nat :=
  match books.getLast? with
  | some last => last.id + 1
  | none => 1

/-- Handler of `POST /books` (lines 97-111). -/
def createBook (rt : Runtime) (books : List Book) (body : ReqBody) : Response × List Book :=
  let status := body.status.getD (.str "unread")
  let isFavorite := body.isFavorite.getD (.bool false)
  if falsy body.title || falsy body.author then
    (⟨400, .error "Title and author required."⟩, books)
  else
    let newBook : Book :=
      { id := nextId books
        title := body.title.getD .null
        author := body.author.getD .null
        createdAt := rt.now
        isFavorite := isFavorite
        status := status }
    (⟨201, .book newBook⟩, books ++ [newBook])

/-- The four conditional assignments of the full update (lines 119-122). -/
def applyUpdate (body : ReqBody) (book : Book) : Book :=
  let b1 := if falsy body.title then book else { book with title := body.title.getD .null }
  let b2 := if falsy body.author then b1 else { b1 with author := body.author.getD .null }
  let b3 :=
    match body.isFavorite with
    | some (.bool v) => { b2 with isFavorite := .bool v }
    | _ => b2
  if falsy body.status then b3 else { b3 with status := body.status.getD .null }

/-- Handler of `PUT /books/:id` (lines 114-125). -/
def updateBook (books : List Book) (idParam : String) (body : ReqBody) :
    Response × List Book :=
  match books.find? (idMatches idParam) with
  | none => (notFound, books)
  | some book =>
    (⟨200, .book (applyUpdate body book)⟩, modifyFirst (idMatches idParam) (applyUpdate body) books)

/-- The assignment `book.isFavorite = !book.isFavorite` (line 132). -/
def toggle (book : Book) : Book :=
  { book with isFavorite := .bool (!book.isFavorite.truthy) }

/-- Handler of `PATCH /books/:id/favorite` (lines 128-134). -/
def toggleFavorite (books : List Book) (idParam : String) : Response × List Book :=
  match books.find? (idMatches idParam) with
  | none => (notFound, books)
  | some book =>
    (⟨200, .messageBook "Favorite status toggled." (toggle book)⟩,
      modifyFirst (idMatches idParam) toggle books)

def validStatuses : List String := ["unread", "reading", "completed"]

/-- The test `validStatuses.includes(status)` (line 141). -/
def isValidStatus (status : Option JVal) : Bool :=
  match status with
  | some (.str s) => validStatuses.contains s
  | _ => false

/-- Handler of `PATCH /books/:id/status` (lines 137-149). -/
def updateStatus (books : List Book) (idParam : String) (body : ReqBody) :
    Response × List Book :=
  if !isValidStatus body.status then
    (⟨400, .error ("Status must be one of: " ++ ", ".intercalate validStatuses)⟩, books)
  else
    match books.find? (idMatches idParam) with
    | none => (notFound, books)
    | some book =>
      let set : Book → Book := fun b => { b with status := body.status.getD .null }
      (⟨200, .messageBook "Status updated." (set book)⟩,
        modifyFirst (idMatches idParam) set books)

/-- Handler of `DELETE /books/:id` (lines 152-158). -/
def deleteBook (books : List Book) (idParam : String) : Response × List Book :=
  match books.findIdx? (idMatches idParam) with
  | none => (notFound, books)
  | some index =>
    match books.get? index with
    | some deleted => (⟨200, .book deleted⟩, books.eraseIdx index)
    | none => (⟨200, .undefined⟩, books.eraseIdx index)

/-- Handler of `DELETE /books/reset` (lines 161-164). -/
def resetBooks (_books : List Book) : Response × List Book :=
  (⟨200, .message "Book list cleared."⟩, [])

/-! ## The router -/

/-- One segment of a route path: a literal or a named parameter (`:id`). -/
inductive Seg where
  | lit (s : String)
  | param
  deriving DecidableEq

inductive Handler where
  | list | getById | search | recommend | stats | create | update
  | toggleFavorite | updateStatus | delete | reset
  deriving DecidableEq

structure Route where
  method : Method
  pattern : List Seg
  handler : Handler

/-- The routes in the order in which `server.js` registers them. -/
def routes : List Route :=
  [ ⟨.GET, [.lit "books"], .list⟩,
    ⟨.GET, [.lit "books", .param], .getById⟩,
    ⟨.GET, [.lit "books", .lit "search"], .search⟩,
    ⟨.GET, [.lit "books", .lit "recommend"], .recommend⟩,
    ⟨.GET, [.lit "books", .lit "stats"], .stats⟩,
    ⟨.POST, [.lit "books"], .create⟩,
    ⟨.PUT, [.lit "books", .param], .update⟩,
    ⟨.PATCH, [.lit "books", .param, .lit "favorite"], .toggleFavorite⟩,
    ⟨.PATCH, [.lit "books", .param, .lit "status"], .updateStatus⟩,
    ⟨.DELETE, [.lit "books", .param], .delete⟩,
    ⟨.DELETE, [.lit "books", .lit "reset"], .reset⟩ ]

/-- Lower-casing of the ASCII letters (Express matches literal path segments
without regard to ASCII case). -/
def asciiLower (s : String) : String :=
  String.mk (s.toList.map Char.toLower)

/-- A literal matches itself in any ASCII case; a parameter matches any
non-empty segment. -/
def segMatches : Seg → String → Bool
  | .lit s, t => asciiLower t == s
  | .param, t => t != ""

def pathMatches : List Seg → List String → Bool
  | [], [] => true
  | s :: ss, t :: ts => segMatches s t && pathMatches ss ts
  | _, _ => false

/-- The segment bound to the route parameter (`req.params.id`). -/
def paramOf : List Seg → List String → String
  | .param :: _, t :: _ => t
  | _ :: ss, _ :: ts => paramOf ss ts
  | _, _ => ""

def routeMatches (req : Request) (r : Route) : Bool :=
  decide (r.method = req.method) && pathMatches r.pattern req.path

def runHandler (rt : Runtime) (books : List Book) (req : Request) (r : Route) :
    Response × List Book :=
  match r.handler with
  | .list => listBooks rt books req.query
  | .getById => getBook books (paramOf r.pattern req.path)
  | .search => searchBooks rt books req.query
  | .recommend => recommend rt books
  | .stats => stats books
  | .create => createBook rt books req.body
  | .update => updateBook books (paramOf r.pattern req.path) req.body
  | .toggleFavorite => toggleFavorite books (paramOf r.pattern req.path)
  | .updateStatus => updateStatus books (paramOf r.pattern req.path) req.body
  | .delete => deleteBook books (paramOf r.pattern req.path)
  | .reset => resetBooks books

/-- Handling of one request: the first registered route that matches the method
and the path runs its handler (no handler passes control on). -/
def handle (rt : Runtime) (books : List Book) (req : Request) : Response × List Book :=
  match routes.find? (routeMatches req) with
  | some r => runHandler rt books req r
  | none => (⟨404, .noRoute⟩, books)

/-- The store states reached from the seed records by the mutating operations. -/
inductive Reachable : List Book → Prop where
  | seed (t1 t2 : Nat) : Reachable (seedBooks t1 t2)
  | create {s : List Book} (rt : Runtime) (body : ReqBody) :
      Reachable s → Reachable (createBook rt s body).2
  | update {s : List Book} (idParam : String) (body : ReqBody) :
      Reachable s → Reachable (updateBook s idParam body).2
  | toggleFavorite {s : List Book} (idParam : String) :
      Reachable s → Reachable (toggleFavorite s idParam).2
  | updateStatus {s : List Book} (idParam : String) (body : ReqBody) :
      Reachable s → Reachable (updateStatus s idParam body).2
  | delete {s : List Book} (idParam : String) :
      Reachable s → Reachable (deleteBook s idParam).2
  | reset {s : List Book} : Reachable s → Reachable (resetBooks s).2

/-- Comparison of two strings by their code points: negative, zero or positive. -/
def codePointCompare : List Char → List Char → Int
  | [], [] => 0
  | [], _ :: _ => -1
  | _ :: _, [] => 1
  | a :: as, b :: bs =>
    if a.toNat < b.toNat then -1
    else if b.toNat < a.toNat then 1
    else codePointCompare as bs

/-- The string conversion of the scalar JSON values (`String(v)`); an object is
rendered as JavaScript renders a plain object. -/
def scalarText : JVal → String
  | .null => "null"
  | .bool true => "true"
  | .bool false => "false"
  | .num n => toString n
  | .str s => s
  | .composite _ => "[object Object]"

/-- A runtime with code-point comparison and ASCII lower-casing, for evaluating
the handlers on concrete requests. -/
def sampleRuntime : Runtime :=
  { toLowerCase := asciiLower
    localeCompare := fun a b => codePointCompare a.toList b.toList
    toText := scalarText
    now := 1000
    random := ⟨0, 0⟩ }

/-- The largest id in the store (`0` for the empty store). -/
def maxId (books : List Book) : Nat :=
  books.foldr (fun b m => max b.id m) 0

/-- Id assignment in the words of the specification: `max(existing ids) + 1`, or
`1` if the store is empty. -/
def specNextId (books : List Book) : Nat :=
  if books = [] then 1 else maxId books + 1

/-- The record that the specification promises for a create request with the given
title and author: the next id in the specification's words, the inputs, the clock
reading, and the supplied or default `isFavorite` and `status`. -/
def specCreated (rt : Runtime) (books : List Book) (body : ReqBody) (title author : JVal) :
    Book :=
  { id := specNextId books
    title := title
    author := author
    createdAt := rt.now
    isFavorite := body.isFavorite.getD (.bool false)
    status := body.status.getD (.str "unread") }

/-- The sort step of a list request does not throw on the list `l`: when
`sortBy` is `'title'` (respectively `'author'`), the title (respectively author)
of every record of `l` after the first is a string. -/
def SortIsDefined (q : Query) (l : List Book) : Prop :=
  (q.sortBy = some "title" → ∀ b ∈ l.tail, ∃ s, b.title = .str s)
    ∧ (q.sortBy = some "author" → ∀ b ∈ l.tail, ∃ s, b.author = .str s)

/-- The number `v` is what double arithmetic gives where exact arithmetic gives
the natural number `n`: `n` itself below `2 ^ 53`, and otherwise `+Infinity` or a
finite value of at least `2 ^ 53`. -/
def RoundsFrom (v : JsNum) (n : Nat) : Prop :=
  (n < 2 ^ 53 ∧ v = .fin n) ∨ (2 ^ 53 ≤ n ∧ (v = .posInf ∨ ∃ m : Nat, 2 ^ 53 ≤ m ∧ v = .fin m))

/-- Ids grow strictly along the store. -/
def IdsIncreasing (books : List Book) : Prop :=
  books.Pairwise (fun a b => a.id < b.id)

/-- What the specification says of a text field (`title`, `author`, `status`)
under the full update: left as stored when the key is missing, replaced by a
supplied non-empty (truthy) value; a supplied empty value leaves it as stored. -/
def FieldOverwritten (supplied : Option JVal) (old new : JVal) : Prop :=
  (supplied = none → new = old)
    ∧ (∀ v, supplied = some v → v.truthy = true → new = v)
    ∧ (∀ v, supplied = some v → v.truthy = false → new = old)

/-- What the specification says of `isFavorite` under the full update: it becomes
the supplied value when that is a boolean, and is left as stored otherwise. -/
def FlagOverwritten (supplied : Option JVal) (old new : JVal) : Prop :=
  (∀ v : Bool, supplied = some (.bool v) → new = .bool v)
    ∧ ((∀ v : Bool, supplied ≠ some (.bool v)) → new = old)

/-- The field is a string that contains the query as a substring when letter
case is ignored (both are lower-cased by the runtime). -/
def ContainsIgnoringCase (rt : Runtime) (query : String) (field : JVal) : Prop :=
  ∃ t, field = .str t ∧ (rt.toLowerCase query).toList <:+: (rt.toLowerCase t).toList

/-! ## Routing lemmas -/

theorem idMatches_of_nan {p : String} (h : parseInt p = .nan) (b : Book) :
    idMatches p b = false := by
  simp [idMatches, h]

theorem deleteBook_of_nan {p : String} (h : parseInt p = .nan) (books : List Book) :
    deleteBook books p = (notFound, books) := by
  have hnone : books.findIdx? (idMatches p) = none := by
    rw [List.findIdx?_eq_none_iff]
    intro b _
    simp [idMatches_of_nan h]
  simp [deleteBook, hnone]

theorem getBook_of_nan {p : String} (h : parseInt p = .nan) (books : List Book) :
    getBook books p = (notFound, books) := by
  have hnone : books.find? (idMatches p) = none := by
    rw [List.find?_eq_none]
    intro b _
    simp [idMatches_of_nan h]
  simp [getBook, hnone]

/-- A `GET` on a two-segment path under `/books` is taken by `/books/:id`, the
first route registered for such paths. -/
theorem handle_get_two_segments (rt : Runtime) (books : List Book) (seg : String)
    (q : Query) (body : ReqBody) (hseg : seg ≠ "") :
    handle rt books ⟨.GET, ["books", seg], q, body⟩ = getBook books seg := by
  have hr : routes.find? (routeMatches ⟨.GET, ["books", seg], q, body⟩)
      = some ⟨.GET, [.lit "books", .param], .getById⟩ := by
    have h1 : routeMatches ⟨.GET, ["books", seg], q, body⟩ ⟨.GET, [.lit "books"], .list⟩
        = false := rfl
    have h2 : routeMatches ⟨.GET, ["books", seg], q, body⟩
        ⟨.GET, [.lit "books", .param], .getById⟩ = true := by
      have h0 : (asciiLower "books" == "books") = true := by decide
      simp [routeMatches, pathMatches, segMatches, hseg, h0]
    simp [routes, List.find?, h1, h2]
  simp only [handle, hr, runHandler, paramOf]

/-- A `DELETE` on a two-segment path under `/books` is taken by `/books/:id`. -/
theorem handle_delete_two_segments (rt : Runtime) (books : List Book) (seg : String)
    (q : Query) (body : ReqBody) (hseg : seg ≠ "") :
    handle rt books ⟨.DELETE, ["books", seg], q, body⟩ = deleteBook books seg := by
  have hr : routes.find? (routeMatches ⟨.DELETE, ["books", seg], q, body⟩)
      = some ⟨.DELETE, [.lit "books", .param], .delete⟩ := by
    have h2 : pathMatches [.lit "books", .param] ["books", seg] = true := by
      have h0 : (asciiLower "books" == "books") = true := by decide
      simp [pathMatches, segMatches, hseg, h0]
    simp [routes, List.find?, routeMatches, h2]
  simp only [handle, hr, runHandler, paramOf]

theorem handle_post_books (rt : Runtime) (books : List Book) (q : Query) (body : ReqBody) :
    handle rt books ⟨.POST, ["books"], q, body⟩ = createBook rt books body := rfl

theorem handle_get_books (rt : Runtime) (books : List Book) (q : Query) (body : ReqBody) :
    handle rt books ⟨.GET, ["books"], q, body⟩ = listBooks rt books q := rfl

/-- C3. The request `DELETE /books/reset` is taken by the route `/books/:id`, which
is registered before `/books/reset`: with `parseInt('reset')` being `NaN` no
record matches, so on every store the answer is 404 "Book not found." and the
store is left as it was; the reset handler itself would have emptied it. -/
theorem delete_reset_request_is_answered_by_delete_by_id (rt : Runtime)
    (books : List Book) (q : Query) (body : ReqBody) :
    handle rt books ⟨.DELETE, ["books", "reset"], q, body⟩ = (⟨404, .error "Book not found."⟩, books)
      ∧ resetBooks books = (⟨200, .message "Book list cleared."⟩, []) := by
  refine ⟨?_, rfl⟩
  rw [handle_delete_two_segments rt books "reset" q body (by decide)]
  exact deleteBook_of_nan (by decide) books

/-- C4. The requests `GET /books/search`, `GET /books/recommend` and
`GET /books/stats` are taken by the route `/books/:id`, which is registered before
them: on every store and for every query each one is answered 404 "Book not
found."; on the seed store the search handler itself would have answered
`query=orwell` with exactly the '1984' record. -/
theorem get_search_recommend_stats_requests_are_answered_by_get_by_id (rt : Runtime)
    (books : List Book) (q : Query) (body : ReqBody) (t1 t2 : Nat) :
    handle rt books ⟨.GET, ["books", "search"], q, body⟩ = (⟨404, .error "Book not found."⟩, books)
      ∧ handle rt books ⟨.GET, ["books", "recommend"], q, body⟩
          = (⟨404, .error "Book not found."⟩, books)
      ∧ handle rt books ⟨.GET, ["books", "stats"], q, body⟩
          = (⟨404, .error "Book not found."⟩, books)
      ∧ handle sampleRuntime (seedBooks t1 t2)
            ⟨.GET, ["books", "search"], { query := some "orwell" }, {}⟩
          = (⟨404, .error "Book not found."⟩, seedBooks t1 t2)
      ∧ searchBooks sampleRuntime (seedBooks t1 t2) { query := some "orwell" }
          = (⟨200, .books [⟨1, .str "1984", .str "George Orwell", t1, .bool false,
              .str "unread"⟩]⟩, seedBooks t1 t2) := by
  refine ⟨?_, ?_, ?_, ?_, ?_⟩
  · rw [handle_get_two_segments rt books "search" q body (by decide)]
    exact getBook_of_nan (by decide) books
  · rw [handle_get_two_segments rt books "recommend" q body (by decide)]
    exact getBook_of_nan (by decide) books
  · rw [handle_get_two_segments rt books "stats" q body (by decide)]
    exact getBook_of_nan (by decide) books
  · rw [handle_get_two_segments _ _ "search" _ _ (by decide)]
    exact getBook_of_nan (by decide) _
  · rfl

/-! ## Ids along reachable stores -/

theorem idsIncreasing_seed (t1 t2 : Nat) : IdsIncreasing (seedBooks t1 t2) := by
  simp [IdsIncreasing, seedBooks]

theorem lt_nextId_of_idsIncreasing :
    ∀ {s : List Book}, IdsIncreasing s → ∀ b ∈ s, b.id < nextId s
  | [], _, b, hb => by simp at hb
  | [a], _, b, hb => by
    simp at hb
    subst hb
    simp [nextId]
  | a :: c :: t, h, b, hb => by
    have hn : nextId (a :: c :: t) = nextId (c :: t) := by
      simp [nextId, List.getLast?_cons_cons]
    rw [hn]
    have ht : IdsIncreasing (c :: t) := (List.pairwise_cons.mp h).2
    rcases List.mem_cons.mp hb with rfl | hb
    · have hac : b.id < c.id := (List.pairwise_cons.mp h).1 c (List.mem_cons_self _ _)
      exact lt_trans hac (lt_nextId_of_idsIncreasing ht c (List.mem_cons_self _ _))
    · exact lt_nextId_of_idsIncreasing ht b hb

theorem map_id_modifyFirst (p : Book → Bool) (f : Book → Book) (hf : ∀ b, (f b).id = b.id) :
    ∀ s : List Book, (modifyFirst p f s).map (fun b => b.id) = s.map (fun b => b.id)
  | [] => rfl
  | a :: t => by
    by_cases hp : p a
    · simp [modifyFirst, hp, hf]
    · simp [modifyFirst, hp, map_id_modifyFirst p f hf t]

theorem idsIncreasing_iff_map (s : List Book) :
    IdsIncreasing s ↔ (s.map (fun b => b.id)).Pairwise (fun x y => x < y) := by
  simp [IdsIncreasing, List.pairwise_map]

theorem idsIncreasing_modifyFirst (p : Book → Bool) (f : Book → Book)
    (hf : ∀ b, (f b).id = b.id) {s : List Book} (h : IdsIncreasing s) :
    IdsIncreasing (modifyFirst p f s) := by
  rw [idsIncreasing_iff_map, map_id_modifyFirst p f hf]
  exact (idsIncreasing_iff_map s).mp h

theorem applyUpdate_id (body : ReqBody) (b : Book) : (applyUpdate body b).id = b.id := by
  unfold applyUpdate
  simp only
  split_ifs <;> split <;> rfl

theorem idsIncreasing_createBook (rt : Runtime) (body : ReqBody) {s : List Book}
    (h : IdsIncreasing s) : IdsIncreasing (createBook rt s body).2 := by
  unfold createBook
  simp only
  split_ifs
  · exact h
  · simp only [IdsIncreasing, List.pairwise_append, List.pairwise_singleton, List.mem_singleton,
      true_and]
    refine ⟨h, ?_⟩
    intro a ha b hb
    subst hb
    exact lt_nextId_of_idsIncreasing h a ha

theorem idsIncreasing_updateBook (p : String) (body : ReqBody) {s : List Book}
    (h : IdsIncreasing s) : IdsIncreasing (updateBook s p body).2 := by
  unfold updateBook
  split
  · exact h
  · exact idsIncreasing_modifyFirst _ _ (applyUpdate_id body) h

theorem idsIncreasing_toggleFavorite (p : String) {s : List Book}
    (h : IdsIncreasing s) : IdsIncreasing (toggleFavorite s p).2 := by
  unfold toggleFavorite
  split
  · exact h
  · exact idsIncreasing_modifyFirst (idMatches p) toggle (fun _ => rfl) h

theorem idsIncreasing_updateStatus (p : String) (body : ReqBody) {s : List Book}
    (h : IdsIncreasing s) : IdsIncreasing (updateStatus s p body).2 := by
  unfold updateStatus
  split_ifs
  · exact h
  · split
    · exact h
    · exact idsIncreasing_modifyFirst (idMatches p)
        (fun b => { b with status := body.status.getD .null }) (fun _ => rfl) h

theorem idsIncreasing_deleteBook (p : String) {s : List Book}
    (h : IdsIncreasing s) : IdsIncreasing (deleteBook s p).2 := by
  unfold deleteBook
  split
  · exact h
  · split <;> exact List.Pairwise.sublist (List.eraseIdx_sublist _ _) h

theorem idsIncreasing_of_reachable {s : List Book} (h : Reachable s) : IdsIncreasing s := by
  induction h with
  | seed t1 t2 => exact idsIncreasing_seed t1 t2
  | create rt body _ ih => exact idsIncreasing_createBook rt body ih
  | update p body _ ih => exact idsIncreasing_updateBook p body ih
  | toggleFavorite p _ ih => exact idsIncreasing_toggleFavorite p ih
  | updateStatus p body _ ih => exact idsIncreasing_updateStatus p body ih
  | delete p _ ih => exact idsIncreasing_deleteBook p ih
  | reset _ _ => exact List.Pairwise.nil

theorem nodup_ids_of_idsIncreasing {s : List Book} (h : IdsIncreasing s) :
    (s.map (fun b => b.id)).Nodup := by
  have h2 := (idsIncreasing_iff_map s).mp h
  exact h2.imp (fun hlt => Nat.ne_of_lt hlt)

theorem nextId_eq_specNextId :
    ∀ {s : List Book}, IdsIncreasing s → nextId s = specNextId s
  | [], _ => rfl
  | [a], _ => by simp [nextId, specNextId, maxId]
  | a :: c :: t, h => by
    have ht : IdsIncreasing (c :: t) := (List.pairwise_cons.mp h).2
    have ih := nextId_eq_specNextId ht
    have hn : nextId (a :: c :: t) = nextId (c :: t) := by
      simp [nextId, List.getLast?_cons_cons]
    have ha : a.id < nextId (a :: c :: t) :=
      lt_nextId_of_idsIncreasing h a (List.mem_cons_self _ _)
    rw [hn] at ha ⊢
    rw [ih] at ha ⊢
    simp only [specNextId, maxId, List.foldr_cons, reduceCtorEq, if_false] at ha ⊢
    omega

/-- C1. In every store reached from the two seed records by create, full update,
toggle-favorite, status update, delete and reset, no two records have the same id,
and the id of the record returned by a successful create differs from the id of
every record that was in the store before the create. -/
theorem reachable_ids_are_unique {s : List Book} (h : Reachable s) :
    (s.map (fun b => b.id)).Nodup
      ∧ ∀ (rt : Runtime) (body : ReqBody) (nb : Book) (s' : List Book),
          createBook rt s body = (⟨201, .book nb⟩, s') → ∀ b ∈ s, b.id ≠ nb.id := by
  have hinc := idsIncreasing_of_reachable h
  refine ⟨nodup_ids_of_idsIncreasing hinc, ?_⟩
  intro rt body nb s' hc b hb
  unfold createBook at hc
  simp only at hc
  split_ifs at hc
  · simp at hc
  · simp only [Prod.mk.injEq, Response.mk.injEq, Payload.book.injEq, true_and] at hc
    have hlt := lt_nextId_of_idsIncreasing hinc b hb
    rw [← hc.1]
    exact Nat.ne_of_lt hlt

theorem reachable_ids_are_unique_witness :
    Reachable (createBook sampleRuntime (deleteBook (seedBooks 0 0) "2").2
        { title := some (.str "Dune"), author := some (.str "Herbert") }).2
      ∧ ((createBook sampleRuntime (deleteBook (seedBooks 0 0) "2").2
          { title := some (.str "Dune"), author := some (.str "Herbert") }).2.map
            (fun b => b.id)).Nodup :=
  ⟨Reachable.create _ _ (Reachable.delete _ (Reachable.seed 0 0)),
    (reachable_ids_are_unique
      (Reachable.create _ _ (Reachable.delete _ (Reachable.seed 0 0)))).1⟩

/-- C2. On every reachable store, a create request whose title and author are
present and truthy (for strings: non-empty) is answered 201 with the record made
of the id `max(existing ids) + 1` (`1` on the empty store), the given title and
author, the clock reading, and the supplied or default (`false`, `'unread'`)
`isFavorite` and `status`; the new store is the old one with exactly that record
appended.  The same holds for the request `POST /books` through the router. -/
theorem create_appends_record_with_next_id {s : List Book} (h : Reachable s)
    (rt : Runtime) (q : Query) (body : ReqBody) (title author : JVal)
    (ht : body.title = some title) (ha : body.author = some author)
    (htt : title.truthy = true) (hat : author.truthy = true) :
    createBook rt s body
        = (⟨201, .book (specCreated rt s body title author)⟩,
            s ++ [specCreated rt s body title author])
      ∧ handle rt s ⟨.POST, ["books"], q, body⟩
        = (⟨201, .book (specCreated rt s body title author)⟩,
            s ++ [specCreated rt s body title author]) := by
  have hinc := idsIncreasing_of_reachable h
  have hc : createBook rt s body
      = (⟨201, .book (specCreated rt s body title author)⟩,
          s ++ [specCreated rt s body title author]) := by
    simp [createBook, falsy, ht, ha, htt, hat, specCreated, nextId_eq_specNextId hinc]
  exact ⟨hc, by rw [handle_post_books]; exact hc⟩

theorem create_appends_record_with_next_id_witness :
    Reachable (seedBooks 0 0) ∧ JVal.truthy (.str "Dune") = true
      ∧ JVal.truthy (.str "Herbert") = true
      ∧ createBook sampleRuntime (seedBooks 0 0)
        { title := some (.str "Dune"), author := some (.str "Herbert") }
      = (⟨201, .book ⟨3, .str "Dune", .str "Herbert", 1000, .bool false, .str "unread"⟩⟩,
          seedBooks 0 0 ++ [⟨3, .str "Dune", .str "Herbert", 1000, .bool false, .str "unread"⟩]) :=
  ⟨Reachable.seed 0 0, rfl, rfl,
    (create_appends_record_with_next_id (Reachable.seed 0 0) sampleRuntime {}
      { title := some (.str "Dune"), author := some (.str "Herbert") }
      (.str "Dune") (.str "Herbert") rfl rfl rfl rfl).1⟩

/-- C5. On the store reached from the seed by creating a record with status
'Completed' (create stores the status as given), the list request with
`status=Completed` has the filtered set made of the seed record 'The Alchemist'
alone: the query is lower-cased and compared exactly with the stored status, so
the new record, whose status equals the query even letter for letter, is left
out. -/
theorem status_filter_omits_record_stored_with_upper_case :
    Reachable (createBook sampleRuntime (seedBooks 0 0)
        { title := some (.str "Dune"), author := some (.str "Herbert"),
          status := some (.str "Completed") }).2
      ∧ (createBook sampleRuntime (seedBooks 0 0)
          { title := some (.str "Dune"), author := some (.str "Herbert"),
            status := some (.str "Completed") }).2
        = seedBooks 0 0 ++ [⟨3, .str "Dune", .str "Herbert", 1000, .bool false, .str "Completed"⟩]
      ∧ filteredSet sampleRuntime
          (seedBooks 0 0 ++ [⟨3, .str "Dune", .str "Herbert", 1000, .bool false, .str "Completed"⟩])
          { status := some "Completed" }
        = [⟨2, .str "The Alchemist", .str "Paulo Coelho", 0, .bool true, .str "completed"⟩]
      ∧ sampleRuntime.toLowerCase "Completed" = sampleRuntime.toLowerCase "completed" := by
  refine ⟨Reachable.create _ _ (Reachable.seed 0 0), ?_, ?_, ?_⟩ <;> decide

/-- C6. On the store reached from the seed by creating a record with
`isFavorite: "yes"` (create stores the value as given, without the boolean check
that the full update makes), the list request with `favorite=true` returns that
record in `data`, although its `isFavorite` is the string "yes" and not `true`. -/
theorem favorite_filter_returns_record_with_non_boolean_flag :
    Reachable (createBook sampleRuntime (seedBooks 0 0)
        { title := some (.str "Dune"), author := some (.str "Herbert"),
          isFavorite := some (.str "yes") }).2
      ∧ listBooks sampleRuntime (createBook sampleRuntime (seedBooks 0 0)
          { title := some (.str "Dune"), author := some (.str "Herbert"),
            isFavorite := some (.str "yes") }).2 { favorite := some "true" }
        = (⟨200, .listing 2 1 2
              [⟨2, .str "The Alchemist", .str "Paulo Coelho", 0, .bool true, .str "completed"⟩,
               ⟨3, .str "Dune", .str "Herbert", 1000, .str "yes", .str "unread"⟩]⟩,
            seedBooks 0 0 ++ [⟨3, .str "Dune", .str "Herbert", 1000, .str "yes", .str "unread"⟩])
      ∧ JVal.str "yes" ≠ JVal.bool true := by
  refine ⟨Reachable.create _ _ (Reachable.seed 0 0), ?_, ?_⟩ <;> decide

/-! ## Rounding to a double -/

theorem bitLengthAux_zero (fuel : Nat) : bitLengthAux fuel 0 = 0 := by
  cases fuel <;> simp [bitLengthAux]

theorem bitLengthAux_spec : ∀ fuel n : Nat, n ≤ fuel → 0 < n →
    2 ^ (bitLengthAux fuel n - 1) ≤ n ∧ n < 2 ^ bitLengthAux fuel n
  | 0, n, h, hn => by omega
  | fuel + 1, n, h, hn => by
    have hne : n ≠ 0 := by omega
    simp only [bitLengthAux, hne, if_false]
    by_cases h2 : n / 2 = 0
    · have h1 : n = 1 := by omega
      subst h1
      simp [bitLengthAux_zero]
    · obtain ⟨ih1, ih2⟩ := bitLengthAux_spec fuel (n / 2) (by omega) (by omega)
      have hb : 0 < bitLengthAux fuel (n / 2) := by
        rcases Nat.eq_zero_or_pos (bitLengthAux fuel (n / 2)) with h0 | h0
        · rw [h0] at ih2
          simp at ih2
          exact absurd ih2 h2
        · exact h0
      obtain ⟨b, hbe⟩ : ∃ b, bitLengthAux fuel (n / 2) = b + 1 := ⟨_, (Nat.succ_pred_eq_of_pos hb).symm⟩
      rw [hbe] at ih1 ih2 ⊢
      simp only [Nat.add_sub_cancel] at ih1 ⊢
      rw [Nat.pow_succ] at ih2 ⊢
      rw [Nat.pow_succ]
      constructor <;> omega

theorem bitLength_spec {n : Nat} (hn : 0 < n) :
    2 ^ (bitLength n - 1) ≤ n ∧ n < 2 ^ bitLength n :=
  bitLengthAux_spec n n (le_refl n) hn

theorem bitLength_le_of_lt {n k : Nat} (h : n < 2 ^ k) : bitLength n ≤ k := by
  rcases Nat.eq_zero_or_pos n with h0 | h0
  · subst h0
    simp [bitLength, bitLengthAux_zero]
  · have hs := (bitLength_spec h0).1
    have hlt : 2 ^ (bitLength n - 1) < 2 ^ k := lt_of_le_of_lt hs h
    have := (Nat.pow_lt_pow_iff_right (by decide : 1 < 2)).mp hlt
    omega

theorem lt_bitLength_of_le {n k : Nat} (h : 2 ^ k ≤ n) : k < bitLength n := by
  have h0 : 0 < n := lt_of_lt_of_le (Nat.two_pow_pos _) h
  have hs := (bitLength_spec h0).2
  exact (Nat.pow_lt_pow_iff_right (by decide : 1 < 2)).mp (lt_of_le_of_lt h hs)

theorem roundSig_of_lt {n : Nat} (h : n < 2 ^ 53) : roundSig n = n := by
  unfold roundSig
  rw [if_pos h]

/-- The quotient kept by the rounding of a number of at least `2 ^ 53`. -/
theorem roundSig_quotient {n : Nat} (h : 2 ^ 53 ≤ n) :
    1 ≤ bitLength n - 53 ∧ 2 ^ 52 ≤ n / 2 ^ (bitLength n - 53) := by
  have hL : 53 < bitLength n := lt_bitLength_of_le h
  have h0 : 0 < n := lt_of_lt_of_le (Nat.two_pow_pos _) h
  have hs := (bitLength_spec h0).1
  refine ⟨by omega, ?_⟩
  rw [Nat.le_div_iff_mul_le (Nat.two_pow_pos _), ← Nat.pow_add]
  have he : 52 + (bitLength n - 53) = bitLength n - 1 := by omega
  rw [he]
  exact hs

theorem le_roundSig_of_le {n : Nat} (h : 2 ^ 53 ≤ n) : 2 ^ 53 ≤ roundSig n := by
  obtain ⟨he, hq⟩ := roundSig_quotient h
  have hlt : ¬ n < 2 ^ 53 := by omega
  have hP : 2 ≤ 2 ^ (bitLength n - 53) := by
    calc 2 = 2 ^ 1 := rfl
      _ ≤ 2 ^ (bitLength n - 53) := Nat.pow_le_pow_right (by decide) he
  have hbase : 2 ^ 53 ≤ n / 2 ^ (bitLength n - 53) * 2 ^ (bitLength n - 53) := by
    calc 2 ^ 53 = 2 ^ 52 * 2 := by norm_num
      _ ≤ n / 2 ^ (bitLength n - 53) * 2 ^ (bitLength n - 53) := Nat.mul_le_mul hq hP
  simp only [roundSig, hlt, if_false]
  split_ifs
  · calc 2 ^ 53 ≤ n / 2 ^ (bitLength n - 53) * 2 ^ (bitLength n - 53) := hbase
      _ ≤ (n / 2 ^ (bitLength n - 53) + 1) * 2 ^ (bitLength n - 53) :=
        Nat.mul_le_mul_right _ (Nat.le_succ _)
  · exact hbase

theorem ofInt_natCast (n : Nat) :
    JsNum.ofInt (n : Int)
      = if bitLength (roundSig n) ≤ 1024 then .fin (roundSig n : Int) else .posInf := by
  have h : ¬ ((n : Int) < 0) := by omega
  simp [JsNum.ofInt, h]

theorem roundsFrom_ofInt (n : Nat) : RoundsFrom (JsNum.ofInt (n : Int)) n := by
  rw [ofInt_natCast]
  by_cases h : n < 2 ^ 53
  · have hb : bitLength n ≤ 1024 := le_trans (bitLength_le_of_lt h) (by decide)
    rw [roundSig_of_lt h, if_pos hb]
    exact Or.inl ⟨h, rfl⟩
  · have hge : 2 ^ 53 ≤ n := by omega
    refine Or.inr ⟨hge, ?_⟩
    split_ifs
    · exact Or.inr ⟨roundSig n, le_roundSig_of_le hge, rfl⟩
    · exact Or.inl rfl

theorem mul_fin_fin (a b : Int) : (JsNum.fin a) * (JsNum.fin b) = JsNum.ofInt (a * b) := rfl

theorem posInf_mul_fin {l : Nat} (hl : 0 < l) : JsNum.posInf * (JsNum.fin l) = JsNum.posInf := by
  have h1 : (l : Int) ≠ 0 := by omega
  have h2 : (0 : Int) < l := by omega
  show JsNum.infTimes true l = JsNum.posInf
  simp [JsNum.infTimes, h1, h2]

theorem roundsFrom_mul {a : JsNum} {n l : Nat} (h : RoundsFrom a n) (hl : 0 < l) :
    RoundsFrom (a * JsNum.fin l) (n * l) := by
  rcases h with ⟨hn, rfl⟩ | ⟨hn, rfl | ⟨m, hm, rfl⟩⟩
  · rw [mul_fin_fin, ← Nat.cast_mul]
    exact roundsFrom_ofInt (n * l)
  · rw [posInf_mul_fin hl]
    exact Or.inr ⟨le_trans hn (Nat.le_mul_of_pos_right n hl), Or.inl rfl⟩
  · rw [mul_fin_fin, ← Nat.cast_mul]
    have hml : 2 ^ 53 ≤ m * l := le_trans hm (Nat.le_mul_of_pos_right m hl)
    rcases roundsFrom_ofInt (m * l) with ⟨hlt, _⟩ | ⟨_, hv⟩
    · omega
    · exact Or.inr ⟨le_trans hn (Nat.le_mul_of_pos_right n hl), hv⟩

theorem add_fin_fin (a b : Int) :
    (JsNum.fin a) + (JsNum.fin b)
      = if a = 0 then JsNum.fin b else if b = 0 then JsNum.fin a else JsNum.ofInt (a + b) := rfl

theorem posInf_add_fin (b : Int) : JsNum.posInf + (JsNum.fin b) = JsNum.posInf := rfl

theorem roundsFrom_fin_add (m l : Nat) : RoundsFrom (JsNum.fin m + JsNum.fin l) (m + l)
    ∨ (2 ^ 53 ≤ m ∧ ∃ k : Nat, 2 ^ 53 ≤ k ∧ JsNum.fin m + JsNum.fin l = JsNum.fin k) := by
  rw [add_fin_fin]
  by_cases hm : (m : Int) = 0
  · have hm0 : m = 0 := by omega
    subst hm0
    simp only [Nat.cast_zero, if_true, Nat.zero_add]
    by_cases hl : l < 2 ^ 53
    · exact Or.inl (Or.inl ⟨hl, rfl⟩)
    · exact Or.inl (Or.inr ⟨by omega, Or.inr ⟨l, by omega, rfl⟩⟩)
  · rw [if_neg hm]
    by_cases hl0 : (l : Int) = 0
    · have hl0' : l = 0 := by omega
      subst hl0'
      simp only [Nat.cast_zero, if_true, Nat.add_zero]
      by_cases hmlt : m < 2 ^ 53
      · exact Or.inl (Or.inl ⟨hmlt, rfl⟩)
      · exact Or.inl (Or.inr ⟨by omega, Or.inr ⟨m, by omega, rfl⟩⟩)
    · rw [if_neg hl0, ← Nat.cast_add]
      exact Or.inl (roundsFrom_ofInt (m + l))

theorem roundsFrom_add {a : JsNum} {n l : Nat} (h : RoundsFrom a n) :
    RoundsFrom (a + JsNum.fin l) (n + l) := by
  rcases h with ⟨hn, rfl⟩ | ⟨hn, rfl | ⟨m, hm, rfl⟩⟩
  · rcases roundsFrom_fin_add n l with h | ⟨h, _⟩
    · exact h
    · omega
  · rw [posInf_add_fin]
    exact Or.inr ⟨by omega, Or.inl rfl⟩
  · rcases roundsFrom_fin_add m l with h | ⟨_, k, hk, he⟩
    · rcases h with ⟨hlt, _⟩ | ⟨_, hv⟩
      · omega
      · exact Or.inr ⟨by omega, hv⟩
    · exact Or.inr ⟨by omega, Or.inr ⟨k, hk, he⟩⟩

theorem roundsFrom_sub_one {p : Nat} (hp : 0 < p) : RoundsFrom (JsNum.fin p - 1) (p - 1) := by
  have hsub : JsNum.fin p - 1 = JsNum.fin p + JsNum.fin (-1) := rfl
  rw [hsub, add_fin_fin]
  have hp0 : (p : Int) ≠ 0 := by omega
  have h1 : (-1 : Int) ≠ 0 := by decide
  rw [if_neg hp0, if_neg h1]
  have hc : (p : Int) + -1 = ((p - 1 : Nat) : Int) := by omega
  rw [hc]
  exact roundsFrom_ofInt (p - 1)

theorem clampIndex_roundsFrom {len n : Nat} {v : JsNum} (hlen : len ≤ 2 ^ 53)
    (h : RoundsFrom v n) : clampIndex len v = min n len := by
  rcases h with ⟨_, rfl⟩ | ⟨hn, rfl | ⟨m, hm, rfl⟩⟩
  · have h0 : ¬ ((n : Int) < 0) := by omega
    simp [clampIndex, h0]
  · simp only [clampIndex]
    omega
  · have h0 : ¬ ((m : Int) < 0) := by omega
    simp only [clampIndex, h0, if_false, Int.toNat_ofNat]
    omega

theorem take_drop_clamped {α : Type} (l : List α) (s n : Nat) :
    (l.drop (min s l.length)).take (min (s + n) l.length - min s l.length)
      = (l.drop s).take n := by
  by_cases hs : s ≤ l.length
  · rw [Nat.min_eq_left hs]
    by_cases hn : s + n ≤ l.length
    · rw [Nat.min_eq_left hn, Nat.add_sub_cancel_left]
    · rw [Nat.min_eq_right (by omega)]
      rw [List.take_of_length_le (by simp), List.take_of_length_le (by simp; omega)]
  · have hd : l.drop s = [] := List.drop_eq_nil_of_le (by omega)
    have hd2 : l.drop (min s l.length) = [] := by
      rw [Nat.min_eq_right (by omega)]
      exact List.drop_eq_nil_of_le (le_refl _)
    rw [hd, hd2]
    simp

/-- A slice whose bounds are the doubles computed for `s` and `s + n`, on a list
whose length is an exact double. -/
theorem slice_of_roundsFrom {α : Type} (l : List α) {start stop : JsNum} {s n : Nat}
    (hlen : l.length ≤ 2 ^ 53) (h1 : RoundsFrom start s) (h2 : RoundsFrom stop (s + n)) :
    slice l start stop = (l.drop s).take n := by
  simp only [slice, clampIndex_roundsFrom hlen h1, clampIndex_roundsFrom hlen h2]
  exact take_drop_clamped l s n

theorem slice_whole {α : Type} (l : List α) :
    slice l (((1 : JsNum) - 1) * (l.length : JsNum))
      (((1 : JsNum) - 1) * (l.length : JsNum) + (l.length : JsNum)) = l := by
  have h1 : (1 : JsNum) - 1 = JsNum.fin 0 := by decide
  have h2 : JsNum.fin 0 * JsNum.fin (l.length : Int) = JsNum.fin 0 := by
    rw [mul_fin_fin, zero_mul]
    decide
  have h3 : JsNum.fin 0 + JsNum.fin (l.length : Int) = JsNum.fin (l.length : Int) := by
    rw [add_fin_fin, if_pos rfl]
  have h0 : ¬ ((l.length : Int) < 0) := by omega
  rw [h1, h2, h3]
  simp [slice, clampIndex, h0]

/-- The rounded product of a double below one and a length stays below the
length: `roundSig (m * n) < n * 2 ^ k` for the double `m / 2 ^ k`. -/
theorem roundSig_mul_lt {m n k : Nat} (hm : m < 2 ^ 53) (hmk : m < 2 ^ k) (hn : 0 < n)
    (hn53 : n < 2 ^ 53) : roundSig (m * n) < n * 2 ^ k := by
  have hlt : m * n < n * 2 ^ k := by
    rw [Nat.mul_comm n]
    exact Nat.mul_lt_mul_of_pos_right hmk hn
  by_cases hsmall : m * n < 2 ^ 53
  · rw [roundSig_of_lt hsmall]
    exact hlt
  · have hge : 2 ^ 53 ≤ m * n := by omega
    obtain ⟨he, hq⟩ := roundSig_quotient hge
    have hpos : 0 < m * n := lt_of_lt_of_le (Nat.two_pow_pos _) hge
    have hspec := (bitLength_spec hpos).1
    -- the exponent of the rounding step is at most `k`
    have hup : m * n < 2 ^ (k + 53) := by
      rw [Nat.pow_add]
      exact Nat.mul_lt_mul'' hmk hn53
    have hek : bitLength (m * n) - 53 ≤ k := by
      have h1 : 2 ^ (bitLength (m * n) - 1) < 2 ^ (k + 53) := lt_of_le_of_lt hspec hup
      have h2 := (Nat.pow_lt_pow_iff_right (by decide : 1 < 2)).mp h1
      omega
    -- `2 ^ 52 * 2 ^ e ≤ m * n`
    have hlow : 2 ^ 52 * 2 ^ (bitLength (m * n) - 53) ≤ m * n := by
      rw [← Nat.pow_add]
      have hee : 52 + (bitLength (m * n) - 53) = bitLength (m * n) - 1 := by omega
      rw [hee]
      exact hspec
    -- `m * n < 2 ^ 53 * n`
    have hhigh : m * n < 2 ^ 53 * n := Nat.mul_lt_mul_of_pos_right hm hn
    -- `m * n + n ≤ n * 2 ^ k`
    have hroom : m * n + n ≤ n * 2 ^ k := by
      have h1 : (m + 1) * n ≤ 2 ^ k * n := Nat.mul_le_mul_right n hmk
      rw [Nat.add_mul, Nat.one_mul, Nat.mul_comm (2 ^ k)] at h1
      exact h1
    have hsplit : 2 ^ k = 2 ^ (k - (bitLength (m * n) - 53)) * 2 ^ (bitLength (m * n) - 53) := by
      rw [← Nat.pow_add]
      congr 1
      omega
    have hnotlt : ¬ m * n < 2 ^ 53 := hsmall
    simp only [roundSig, hnotlt, if_false]
    generalize m * n = N at *
    generalize bitLength N - 53 = e at *
    generalize 2 ^ (k - e) = c at *
    generalize hP : 2 ^ e = P at *
    have hPpos : 0 < P := by
      rw [← hP]
      exact Nat.two_pow_pos _
    have hdm : P * (N / P) + N % P = N := Nat.div_add_mod N P
    have hr : N % P < P := Nat.mod_lt N hPpos
    have hT : n * 2 ^ k = n * c * P := by
      rw [hsplit, Nat.mul_assoc]
    rw [hT] at hlt hroom ⊢
    have hqt : N / P < n * c := by
      apply Nat.div_lt_of_lt_mul
      rw [Nat.mul_comm]
      exact hlt
    split_ifs with hcond
    · -- rounded up: the quotient plus one is still below `n * c`
      have hhalf : P ≤ 2 * (N % P) := by
        rcases hcond with h | ⟨h, _⟩ <;> omega
      by_cases hq1 : N / P + 1 < n * c
      · exact Nat.mul_lt_mul_of_pos_right hq1 hPpos
      · exfalso
        have heq : n * c = N / P + 1 := by omega
        rw [heq, Nat.add_mul, Nat.one_mul, Nat.mul_comm (N / P) P] at hroom
        have h2n : 2 * n ≤ P := by omega
        omega
    · exact Nat.mul_lt_mul_of_pos_right hqt hPpos

theorem randomIndex_lt {r : Dyadic} {n : Nat} (hm : r.mant < 2 ^ 53) (hlt : r.mant < 2 ^ r.exp)
    (hn : 0 < n) (hn53 : n < 2 ^ 53) : randomIndex r n < n := by
  unfold randomIndex
  apply Nat.div_lt_of_lt_mul
  rw [Nat.mul_comm (2 ^ r.exp)]
  exact roundSig_mul_lt hm hlt hn hn53

/-! ## The sort step and the page slice -/

theorem keyedAll_of_strings (key : Book → JVal) :
    ∀ l : List Book, (∀ b ∈ l, ∃ s, key b = .str s) →
      ∃ ps, keyedAll key l = some ps ∧ ps.map Prod.snd = l ∧ ∀ p ∈ ps, key p.2 = .str p.1
  | [], _ => ⟨[], rfl, rfl, by simp⟩
  | b :: bs, h => by
    obtain ⟨s, hs⟩ := h b (List.mem_cons_self _ _)
    obtain ⟨ps, hps, hmap, hkey⟩ :=
      keyedAll_of_strings key bs (fun c hc => h c (List.mem_cons_of_mem _ hc))
    refine ⟨(s, b) :: ps, ?_, ?_, ?_⟩
    · simp [keyedAll, keyed, hs, hps]
    · simp [hmap]
    · intro p hp
      rcases List.mem_cons.mp hp with rfl | hp
      · exact hs
      · exact hkey p hp

theorem keyedAll_map_snd (key : Book → JVal) :
    ∀ (l : List Book) (ps : List (String × Book)), keyedAll key l = some ps →
      ps.map Prod.snd = l
  | [], ps, h => by
    simp [keyedAll] at h
    subst h
    rfl
  | b :: bs, ps, h => by
    unfold keyedAll at h
    split at h
    · rename_i p qs hp hqs
      simp only [Option.some.injEq] at h
      subst h
      have hb : p.2 = b := by
        unfold keyed at hp
        split at hp
        · simp only [Option.some.injEq] at hp
          rw [← hp]
        · simp at hp
      simp [hb, keyedAll_map_snd key bs qs hqs]
    · simp at h

/-- Whenever the sort returns, its result is a rearrangement of its input. -/
theorem sortByKey_perm {rt : Runtime} {key : Book → JVal} {l r : List Book}
    (h : sortByKey rt key l = some r) : r.Perm l := by
  cases l with
  | nil =>
    simp only [sortByKey, Option.some.injEq] at h
    subst h
    exact List.Perm.refl _
  | cons first rest =>
    rcases hps : keyedAll key rest with _ | ps
    · simp [sortByKey, hps] at h
    · simp only [sortByKey, hps, Option.some.injEq] at h
      subst h
      have hp := (List.perm_insertionSort
        (fun p q : String × Book => rt.localeCompare p.1 q.1 ≤ 0)
        ((argText rt (key first), first) :: ps)).map Prod.snd
      rw [List.map_cons, keyedAll_map_snd key rest ps hps] at hp
      exact hp

theorem sortByKey_of_strings (rt : Runtime) (key : Book → JVal) (l : List Book)
    (hstr : ∀ b ∈ l, ∃ s, key b = .str s)
    (htot : ∀ a b, rt.localeCompare a b ≤ 0 ∨ rt.localeCompare b a ≤ 0)
    (htrans : ∀ a b c, rt.localeCompare a b ≤ 0 → rt.localeCompare b c ≤ 0 →
      rt.localeCompare a c ≤ 0) :
    ∃ r, sortByKey rt key l = some r ∧ r.Perm l
      ∧ r.Pairwise (fun a b => ∃ s t, key a = .str s ∧ key b = .str t
          ∧ rt.localeCompare s t ≤ 0) := by
  cases l with
  | nil => exact ⟨[], rfl, List.Perm.refl _, List.Pairwise.nil⟩
  | cons first rest =>
    obtain ⟨s0, hs0⟩ := hstr first (List.mem_cons_self _ _)
    obtain ⟨ps, hps, _, hkey⟩ :=
      keyedAll_of_strings key rest (fun b hb => hstr b (List.mem_cons_of_mem _ hb))
    have hs : sortByKey rt key (first :: rest)
        = some ((((s0, first) :: ps).insertionSort
            (fun p q => rt.localeCompare p.1 q.1 ≤ 0)).map Prod.snd) := by
      simp [sortByKey, hps, hs0, argText]
    refine ⟨_, hs, sortByKey_perm hs, ?_⟩
    haveI : IsTotal (String × Book) (fun p q => rt.localeCompare p.1 q.1 ≤ 0) :=
      ⟨fun a b => htot a.1 b.1⟩
    haveI : IsTrans (String × Book) (fun p q => rt.localeCompare p.1 q.1 ≤ 0) :=
      ⟨fun a b c => htrans a.1 b.1 c.1⟩
    have hsorted := List.sorted_insertionSort
      (fun p q : String × Book => rt.localeCompare p.1 q.1 ≤ 0) ((s0, first) :: ps)
    rw [List.pairwise_map]
    have hall : ∀ p ∈ (s0, first) :: ps, key p.2 = .str p.1 := by
      intro p hp
      rcases List.mem_cons.mp hp with rfl | hp
      · exact hs0
      · exact hkey p hp
    have hmem : ∀ p ∈ ((s0, first) :: ps).insertionSort
        (fun p q => rt.localeCompare p.1 q.1 ≤ 0), key p.2 = .str p.1 :=
      fun p hp => hall p ((List.mem_insertionSort _).mp hp)
    exact (List.Pairwise.and_mem.mp hsorted).imp
      (fun ⟨ha, hb, hab⟩ => ⟨_, _, hmem _ ha, hmem _ hb, hab⟩)

theorem pageNum_of_absent {q : Query} (h : q.page = none) : pageNum q = 1 := by
  simp [pageNum, parseIntArg, h, orDefault]

theorem limitNum_of_absent {q : Query} (h : q.limit = none) (result : List Book) :
    limitNum q result = result.length := by
  simp [limitNum, parseIntArg, h, orDefault]

/-- The answer of the list operation once the sort step has returned. -/
theorem listBooks_of_sortStep {rt : Runtime} {books : List Book} {q : Query}
    {result : List Book} (h : sortStep rt q (filteredSet rt books q) = some result) :
    listBooks rt books q
      = (⟨200, .listing result.length (pageNum q) (limitNum q result)
            (slice result ((pageNum q - 1) * limitNum q result)
              ((pageNum q - 1) * limitNum q result + limitNum q result))⟩, books) := by
  simp [listBooks, h]

theorem listBooks_unpaged {rt : Runtime} {books : List Book} {q : Query}
    {result : List Book} (h : sortStep rt q (filteredSet rt books q) = some result)
    (hpage : q.page = none) (hlimit : q.limit = none) :
    listBooks rt books q = (⟨200, .listing result.length 1 result.length result⟩, books) := by
  rw [listBooks_of_sortStep h, pageNum_of_absent hpage, limitNum_of_absent hlimit, slice_whole]

theorem codePointCompare_total :
    ∀ a b : List Char, codePointCompare a b ≤ 0 ∨ codePointCompare b a ≤ 0
  | [], [] => by simp [codePointCompare]
  | [], _ :: _ => by simp [codePointCompare]
  | _ :: _, [] => by simp [codePointCompare]
  | a :: as, b :: bs => by
    have ih := codePointCompare_total as bs
    unfold codePointCompare
    split_ifs <;> omega

theorem codePointCompare_trans :
    ∀ a b c : List Char, codePointCompare a b ≤ 0 → codePointCompare b c ≤ 0 →
      codePointCompare a c ≤ 0
  | [], _, [], _, _ => by simp [codePointCompare]
  | [], _, _ :: _, _, _ => by simp [codePointCompare]
  | _ :: _, [], _, h, _ => by simp [codePointCompare] at h
  | _ :: _, _ :: _, [], _, h => by simp [codePointCompare] at h
  | a :: as, b :: bs, c :: cs, hab, hbc => by
    have ih := codePointCompare_trans as bs cs
    unfold codePointCompare at hab hbc ⊢
    split_ifs at hab hbc ⊢ <;> omega

theorem filteredSet_subset (rt : Runtime) (books : List Book) (q : Query) :
    ∀ b ∈ filteredSet rt books q, b ∈ books := by
  intro b hb
  unfold filteredSet at hb
  simp only at hb
  split at hb
  · split_ifs at hb
    · exact List.mem_of_mem_filter (List.mem_of_mem_filter hb)
    · exact List.mem_of_mem_filter hb
    · exact List.mem_of_mem_filter hb
    · exact hb
  · split_ifs at hb
    · exact List.mem_of_mem_filter hb
    · exact hb

/-- C7. On a store whose titles and authors are strings, with a comparison that
is total and transitive (as `localeCompare` is required to be) and with neither
`page` nor `limit` given: the list request with `sortBy=title` (respectively
`sortBy=author`) is answered 200 with `data` a rearrangement of the filtered set
in which every record's title (respectively author) compares less than or equal
to that of every later record; with any other `sortBy`, or none, `data` is the
filtered set itself, in store order. -/
theorem list_sorts_filtered_set_by_title_or_author (rt : Runtime) (books : List Book)
    (q : Query)
    (hstr : ∀ b ∈ books, (∃ t, b.title = .str t) ∧ (∃ a, b.author = .str a))
    (htot : ∀ a b, rt.localeCompare a b ≤ 0 ∨ rt.localeCompare b a ≤ 0)
    (htrans : ∀ a b c, rt.localeCompare a b ≤ 0 → rt.localeCompare b c ≤ 0 →
      rt.localeCompare a c ≤ 0)
    (hpage : q.page = none) (hlimit : q.limit = none) :
    (q.sortBy = some "title" → ∃ data,
        listBooks rt books q = (⟨200, .listing data.length 1 data.length data⟩, books)
          ∧ data.Perm (filteredSet rt books q)
          ∧ data.Pairwise (fun x y => ∃ s t, x.title = .str s ∧ y.title = .str t
              ∧ rt.localeCompare s t ≤ 0))
      ∧ (q.sortBy = some "author" → ∃ data,
          listBooks rt books q = (⟨200, .listing data.length 1 data.length data⟩, books)
            ∧ data.Perm (filteredSet rt books q)
            ∧ data.Pairwise (fun x y => ∃ s t, x.author = .str s ∧ y.author = .str t
                ∧ rt.localeCompare s t ≤ 0))
      ∧ (q.sortBy ≠ some "title" → q.sortBy ≠ some "author" →
          listBooks rt books q
            = (⟨200, .listing (filteredSet rt books q).length 1 (filteredSet rt books q).length
                  (filteredSet rt books q)⟩, books)) := by
  refine ⟨?_, ?_, ?_⟩
  · intro hs
    obtain ⟨r, hr, hperm, hsorted⟩ := sortByKey_of_strings rt (fun b => b.title)
      (filteredSet rt books q)
      (fun b hb => (hstr b (filteredSet_subset rt books q b hb)).1) htot htrans
    have hstep : sortStep rt q (filteredSet rt books q) = some r := by
      simp [sortStep, hs, hr]
    exact ⟨r, listBooks_unpaged hstep hpage hlimit, hperm, hsorted⟩
  · intro hs
    obtain ⟨r, hr, hperm, hsorted⟩ := sortByKey_of_strings rt (fun b => b.author)
      (filteredSet rt books q)
      (fun b hb => (hstr b (filteredSet_subset rt books q b hb)).2) htot htrans
    have hstep : sortStep rt q (filteredSet rt books q) = some r := by
      simp [sortStep, hs, hr]
    exact ⟨r, listBooks_unpaged hstep hpage hlimit, hperm, hsorted⟩
  · intro h1 h2
    have hstep : sortStep rt q (filteredSet rt books q) = some (filteredSet rt books q) := by
      simp [sortStep, h1, h2]
    exact listBooks_unpaged hstep hpage hlimit

theorem list_sorts_filtered_set_by_title_or_author_witness :
    ∃ data,
      listBooks sampleRuntime
          [⟨1, .str "Ulysses", .str "Joyce", 0, .bool false, .str "unread"⟩,
           ⟨2, .str "Emma", .str "Austen", 0, .bool true, .str "reading"⟩]
          { sortBy := some "title" }
        = (⟨200, .listing data.length 1 data.length data⟩,
            [⟨1, .str "Ulysses", .str "Joyce", 0, .bool false, .str "unread"⟩,
             ⟨2, .str "Emma", .str "Austen", 0, .bool true, .str "reading"⟩])
      ∧ data.Perm (filteredSet sampleRuntime
          [⟨1, .str "Ulysses", .str "Joyce", 0, .bool false, .str "unread"⟩,
           ⟨2, .str "Emma", .str "Austen", 0, .bool true, .str "reading"⟩]
          { sortBy := some "title" })
      ∧ data.Pairwise (fun x y => ∃ s t, x.title = .str s ∧ y.title = .str t
          ∧ sampleRuntime.localeCompare s t ≤ 0) :=
  (list_sorts_filtered_set_by_title_or_author sampleRuntime
    [⟨1, .str "Ulysses", .str "Joyce", 0, .bool false, .str "unread"⟩,
     ⟨2, .str "Emma", .str "Austen", 0, .bool true, .str "reading"⟩]
    { sortBy := some "title" }
    (by simp)
    (fun a b => codePointCompare_total a.toList b.toList)
    (fun a b c => codePointCompare_trans a.toList b.toList c.toList)
    rfl rfl).1 rfl

theorem sortByKey_defined (rt : Runtime) (key : Book → JVal) (l : List Book)
    (h : ∀ b ∈ l.tail, ∃ s, key b = .str s) :
    ∃ r, sortByKey rt key l = some r ∧ r.Perm l := by
  cases l with
  | nil => exact ⟨[], rfl, List.Perm.refl _⟩
  | cons first rest =>
    obtain ⟨ps, hps, _, _⟩ := keyedAll_of_strings key rest h
    have hs : sortByKey rt key (first :: rest)
        = some ((((argText rt (key first), first) :: ps).insertionSort
            (fun p q => rt.localeCompare p.1 q.1 ≤ 0)).map Prod.snd) := by
      simp [sortByKey, hps]
    exact ⟨_, hs, sortByKey_perm hs⟩

theorem sortStep_defined (rt : Runtime) (q : Query) (l : List Book) (h : SortIsDefined q l) :
    ∃ r, sortStep rt q l = some r ∧ r.Perm l := by
  unfold sortStep
  split_ifs with h1 h2
  · exact sortByKey_defined _ _ _ (h.1 h1)
  · exact sortByKey_defined _ _ _ (h.2 h2)
  · exact ⟨l, rfl, List.Perm.refl _⟩

theorem sortStep_perm {rt : Runtime} {q : Query} {l r : List Book}
    (h : sortStep rt q l = some r) : r.Perm l := by
  unfold sortStep at h
  split_ifs at h
  · exact sortByKey_perm h
  · exact sortByKey_perm h
  · simp only [Option.some.injEq] at h
    subst h
    exact List.Perm.refl _

theorem filteredSet_length_le (rt : Runtime) (books : List Book) (q : Query) :
    (filteredSet rt books q).length ≤ books.length := by
  unfold filteredSet
  simp only
  split
  · split_ifs
    · exact le_trans (List.length_filter_le _ _) (List.length_filter_le _ _)
    · exact List.length_filter_le _ _
    · exact List.length_filter_le _ _
    · exact le_refl _
  · split_ifs
    · exact List.length_filter_le _ _
    · exact le_refl _

theorem orDefault_fin_of_pos {n : Nat} (h : 0 < n) (d : JsNum) :
    orDefault (JsNum.fin n) d = JsNum.fin n := by
  have h0 : (n : Int) ≠ 0 := by omega
  simp [orDefault, h0]

/-- The page slice for a page `p` and a limit `l` that are positive integers, on
a result whose length is an exact double. -/
theorem slice_of_page_and_limit {α : Type} (l : List α) (hlen : l.length ≤ 2 ^ 53)
    {p n : Nat} (hp : 0 < p) (hn : 0 < n) :
    slice l ((JsNum.fin p - 1) * JsNum.fin n) ((JsNum.fin p - 1) * JsNum.fin n + JsNum.fin n)
      = (l.drop ((p - 1) * n)).take n := by
  have h1 : RoundsFrom ((JsNum.fin p - 1) * JsNum.fin n) ((p - 1) * n) :=
    roundsFrom_mul (roundsFrom_sub_one hp) hn
  exact slice_of_roundsFrom l hlen h1 (roundsFrom_add h1)

/-- C8 (as stated, refuted). On the store reached from the seed by deleting both
seed records and creating two records whose titles are the numbers 7 and 8, the
list request with `sortBy=title` is answered 500: the comparator calls
`localeCompare` on a number.  The answer carries no `total` and no `data`. -/
theorem list_sorted_by_title_fails_on_numeric_titles :
    Reachable (createBook sampleRuntime (createBook sampleRuntime
        (deleteBook (deleteBook (seedBooks 0 0) "1").2 "2").2
        { title := some (.num 7), author := some (.str "A") }).2
        { title := some (.num 8), author := some (.str "B") }).2
      ∧ listBooks sampleRuntime (createBook sampleRuntime (createBook sampleRuntime
          (deleteBook (deleteBook (seedBooks 0 0) "1").2 "2").2
          { title := some (.num 7), author := some (.str "A") }).2
          { title := some (.num 8), author := some (.str "B") }).2 { sortBy := some "title" }
        = (⟨500, .typeError⟩,
            [⟨1, .num 7, .str "A", 1000, .bool false, .str "unread"⟩,
             ⟨2, .num 8, .str "B", 1000, .bool false, .str "unread"⟩]) := by
  refine ⟨Reachable.create _ _ (Reachable.create _ _
    (Reachable.delete _ (Reachable.delete _ (Reachable.seed 0 0)))), ?_⟩
  decide

/-- C8 (amended). For every store and every list request on which the sort does
not throw (`sortBy` is neither 'title' nor 'author', or the sort key of every
filtered record after the first is a string), the answer is 200 with `total` the
number of records of the filtered set.  When moreover `page` and `limit` parse to
positive integers `p` and `l` and the store has fewer than `2 ^ 32` records (as
every JavaScript array has), `data` is the part of the sorted filtered result
that skips the first `(p-1)*l` records and then takes at most `l` records, so
`data` has at most `l` records; with `page=2` and `limit=1` on a two-record
result, `data` is exactly the second record. -/
theorem list_total_and_page_slice (rt : Runtime) (books : List Book) (q : Query)
    (hsort : SortIsDefined q (filteredSet rt books q)) :
    ∃ result data,
      sortStep rt q (filteredSet rt books q) = some result
        ∧ result.Perm (filteredSet rt books q)
        ∧ listBooks rt books q
          = (⟨200, .listing (filteredSet rt books q).length (pageNum q) (limitNum q result)
                data⟩, books)
        ∧ (∀ p l : Nat, books.length < 2 ^ 32 → 0 < p → 0 < l →
            parseIntArg q.page = JsNum.fin p → parseIntArg q.limit = JsNum.fin l →
              pageNum q = JsNum.fin p ∧ limitNum q result = JsNum.fin l
                ∧ data = (result.drop ((p - 1) * l)).take l ∧ data.length ≤ l)
        ∧ (∀ a b, result = [a, b] → q.page = some "2" → q.limit = some "1" → data = [b]) := by
  obtain ⟨result, hres, hperm⟩ := sortStep_defined rt q _ hsort
  have hpaged : ∀ p l : Nat, result.length ≤ 2 ^ 53 → 0 < p → 0 < l →
      parseIntArg q.page = JsNum.fin p → parseIntArg q.limit = JsNum.fin l →
      pageNum q = JsNum.fin p ∧ limitNum q result = JsNum.fin l
        ∧ slice result ((pageNum q - 1) * limitNum q result)
            ((pageNum q - 1) * limitNum q result + limitNum q result)
          = (result.drop ((p - 1) * l)).take l := by
    intro p l hlen hp hl hpp hpl
    have h1 : pageNum q = JsNum.fin p := by
      rw [pageNum, hpp]
      exact orDefault_fin_of_pos hp _
    have h2 : limitNum q result = JsNum.fin l := by
      rw [limitNum, hpl]
      exact orDefault_fin_of_pos hl _
    refine ⟨h1, h2, ?_⟩
    rw [h1, h2]
    exact slice_of_page_and_limit result hlen hp hl
  refine ⟨result, slice result ((pageNum q - 1) * limitNum q result)
    ((pageNum q - 1) * limitNum q result + limitNum q result), hres, hperm, ?_, ?_, ?_⟩
  · rw [listBooks_of_sortStep hres, hperm.length_eq]
  · intro p l hbooks hp hl hpp hpl
    have hlen : result.length ≤ 2 ^ 53 := by
      have h1 := hperm.length_eq
      have h2 := filteredSet_length_le rt books q
      have h3 : (2 : Nat) ^ 32 ≤ 2 ^ 53 := by decide
      omega
    obtain ⟨h1, h2, h3⟩ := hpaged p l hlen hp hl hpp hpl
    refine ⟨h1, h2, h3, ?_⟩
    rw [h3]
    simp [List.length_take]
  · intro a b hab hp hl
    have h2 : parseInt "2" = JsNum.fin (2 : Nat) := by decide
    have h1 : parseInt "1" = JsNum.fin (1 : Nat) := by decide
    have hlen : result.length ≤ 2 ^ 53 := by
      rw [hab]
      show 2 ≤ 2 ^ 53
      decide
    obtain ⟨_, _, h3⟩ := hpaged 2 1 hlen (by decide) (by decide)
      (by simp [parseIntArg, hp, h2]) (by simp [parseIntArg, hl, h1])
    rw [h3, hab]
    rfl

theorem list_total_and_page_slice_witness :
    SortIsDefined { page := some "2", limit := some "1" }
        (filteredSet sampleRuntime (seedBooks 0 0) { page := some "2", limit := some "1" })
      ∧ listBooks sampleRuntime (seedBooks 0 0) { page := some "2", limit := some "1" }
        = (⟨200, .listing 2 2 1
              [⟨2, .str "The Alchemist", .str "Paulo Coelho", 0, .bool true, .str "completed"⟩]⟩,
            seedBooks 0 0) := by
  have hs : SortIsDefined { page := some "2", limit := some "1" }
      (filteredSet sampleRuntime (seedBooks 0 0) { page := some "2", limit := some "1" }) := by
    simp [SortIsDefined]
  obtain ⟨result, data, hres, _, hlist, _, hex⟩ :=
    list_total_and_page_slice sampleRuntime (seedBooks 0 0)
      { page := some "2", limit := some "1" } hs
  have hr : result = seedBooks 0 0 := by
    have h0 : sortStep sampleRuntime { page := some "2", limit := some "1" }
        (filteredSet sampleRuntime (seedBooks 0 0) { page := some "2", limit := some "1" })
        = some (seedBooks 0 0) := by decide
    rw [h0] at hres
    exact (Option.some.inj hres).symm
  refine ⟨hs, ?_⟩
  rw [hlist, hex _ _ hr rfl rfl, hr]
  rfl

theorem sortStep_ignores_page_and_limit (rt : Runtime) (q : Query) (page limit : Option String)
    (l : List Book) :
    sortStep rt { q with page := page, limit := limit } l = sortStep rt q l := rfl

theorem filteredSet_ignores_page_and_limit (rt : Runtime) (books : List Book) (q : Query)
    (page limit : Option String) :
    filteredSet rt books { q with page := page, limit := limit } = filteredSet rt books q := rfl

set_option maxRecDepth 100000 in
set_option exponentiation.threshold 4000 in
/-- C9 (as stated, refuted). On the seed store the list request with `page=-3` is
answered with `page: -3`, neither a positive integer nor the default 1 (and `data`
is empty although the filtered set has two records); the request with `page=1`
and a `limit` of 400 nines uses the limit `Infinity`, which is no integer (it is
echoed as `null`, and `data` is empty).  On the reachable store whose two titles
are the numbers 7 and 8 the list request with `sortBy=title`, `page=1`,
`limit=1` fails: it is answered 500. -/
theorem list_page_and_limit_counterexamples :
    listBooks sampleRuntime (seedBooks 0 0) { page := some "-3" }
        = (⟨200, .listing 2 (.fin (-3)) 2 []⟩, seedBooks 0 0)
      ∧ ¬ (∃ n : Nat, 0 < n ∧ pageNum { page := some "-3" } = JsNum.fin n)
      ∧ listBooks sampleRuntime (seedBooks 0 0)
          { page := some "1",
            limit := some "9999999999999999999999999999999999999999999999999999999999999999999999999999999999999999999999999999999999999999999999999999999999999999999999999999999999999999999999999999999999999999999999999999999999999999999999999999999999999999999999999999999999999999999999999999999999999999999999999999999999999999999999999999999999999999999999999999999999999999999999999999999999999999999999999999999999999999999999999999999999999999999999" }
        = (⟨200, .listing 2 1 .posInf []⟩, seedBooks 0 0)
      ∧ Reachable (createBook sampleRuntime (createBook sampleRuntime
          (deleteBook (deleteBook (seedBooks 0 0) "1").2 "2").2
          { title := some (.num 7), author := some (.str "A") }).2
          { title := some (.num 8), author := some (.str "B") }).2
      ∧ (listBooks sampleRuntime (createBook sampleRuntime (createBook sampleRuntime
          (deleteBook (deleteBook (seedBooks 0 0) "1").2 "2").2
          { title := some (.num 7), author := some (.str "A") }).2
          { title := some (.num 8), author := some (.str "B") }).2
          { sortBy := some "title", page := some "1", limit := some "1" }).1
        = ⟨500, .typeError⟩ := by
  refine ⟨by decide, ?_, by decide, ?_, by decide⟩
  · have hp : pageNum { page := some "-3" } = JsNum.fin (-3) := by decide
    rw [hp]
    rintro ⟨n, _, hn⟩
    have := JsNum.fin.inj hn
    omega
  · exact Reachable.create _ _ (Reachable.create _ _
      (Reachable.delete _ (Reachable.delete _ (Reachable.seed 0 0))))

/-- C9 (amended). For every `page` and `limit` query value, the page and the limit
that the list operation uses are each either the default (page 1, limit the size
of the filtered result) or the number parsed from the input, which is then
neither `NaN` nor zero: a positive or negative integer, rounded to the nearest
double, or an infinity when the numeral exceeds the range of doubles.  A value
that does not parse as a number yields the default.  The list operation fails
only when the sort step throws: whenever the sort step returns, the answer is 200
and echoes these two values, and the status of the answer does not depend on
`page` and `limit`. -/
theorem page_and_limit_are_parsed_or_default (rt : Runtime) (books : List Book) (q : Query)
    (result : List Book) :
    (pageNum q = 1 ∨ (parseIntArg q.page ≠ JsNum.nan ∧ parseIntArg q.page ≠ 0
        ∧ pageNum q = parseIntArg q.page))
      ∧ (limitNum q result = result.length
          ∨ (parseIntArg q.limit ≠ JsNum.nan ∧ parseIntArg q.limit ≠ 0
            ∧ limitNum q result = parseIntArg q.limit))
      ∧ (parseIntArg q.page = JsNum.nan → pageNum q = 1)
      ∧ (parseIntArg q.limit = JsNum.nan → limitNum q result = result.length)
      ∧ (sortStep rt q (filteredSet rt books q) = some result → ∃ data,
          listBooks rt books q
            = (⟨200, .listing result.length (pageNum q) (limitNum q result) data⟩, books))
      ∧ (∀ page limit : Option String,
          (listBooks rt books { q with page := page, limit := limit }).1.status
            = (listBooks rt books q).1.status) := by
  have hor : ∀ v d : JsNum, orDefault v d = d ∨ (v ≠ JsNum.nan ∧ v ≠ 0 ∧ orDefault v d = v) := by
    intro v d
    cases v with
    | nan => exact Or.inl rfl
    | posInf => exact Or.inr ⟨by decide, by decide, rfl⟩
    | negInf => exact Or.inr ⟨by decide, by decide, rfl⟩
    | fin n =>
      by_cases h0 : n = 0
      · subst h0
        exact Or.inl rfl
      · refine Or.inr ⟨by simp, ?_, by simp [orDefault, h0]⟩
        intro h
        exact h0 (JsNum.fin.inj h)
  refine ⟨hor _ _, hor _ _, ?_, ?_, ?_, ?_⟩
  · intro h
    simp [pageNum, h, orDefault]
  · intro h
    simp [limitNum, h, orDefault]
  · intro h
    exact ⟨_, listBooks_of_sortStep h⟩
  · intro page limit
    unfold listBooks
    rw [filteredSet_ignores_page_and_limit, sortStep_ignores_page_and_limit]
    cases sortStep rt q (filteredSet rt books q) <;> rfl

theorem page_and_limit_are_parsed_or_default_witness :
    parseIntArg (some "abc") = JsNum.nan
      ∧ pageNum { page := some "abc", limit := some "0" } = 1
      ∧ limitNum { page := some "abc", limit := some "0" } (seedBooks 0 0) = 2 := by
  have h := page_and_limit_are_parsed_or_default sampleRuntime (seedBooks 0 0)
    { page := some "abc", limit := some "0" } (seedBooks 0 0)
  have hp : parseIntArg (some "abc") = JsNum.nan := by decide
  refine ⟨hp, h.2.2.1 hp, ?_⟩
  rcases h.2.1 with hl | ⟨_, hn0, _⟩
  · exact hl
  · exact absurd (by decide) hn0

/-! ## Deletion -/

theorem idMatches_iff (p : String) (b : Book) :
    idMatches p b = true ↔ parseInt p = .fin (b.id : Int) := by
  simp only [idMatches]
  cases parseInt p <;> simp [eq_comm]

theorem idMatches_eq_false_of_id_ne {p : String} {b c : Book} (hb : idMatches p b = true)
    (hne : c.id ≠ b.id) : idMatches p c = false := by
  rw [idMatches_iff] at hb
  by_contra hc
  rw [Bool.not_eq_false, idMatches_iff, hb] at hc
  have : (b.id : Int) = (c.id : Int) := JsNum.fin.inj hc
  omega

theorem find?_eq_none_of_no_match {p : String} {s : List Book}
    (h : ∀ b ∈ s, idMatches p b = false) : s.find? (idMatches p) = none := by
  rw [List.find?_eq_none]
  intro b hb
  simp [h b hb]

theorem deleteBook_of_no_match {p : String} {s : List Book}
    (h : ∀ b ∈ s, idMatches p b = false) : deleteBook s p = (notFound, s) := by
  have hnone : s.findIdx? (idMatches p) = none := by
    rw [List.findIdx?_eq_none_iff]
    intro b hb
    simp [h b hb]
  simp [deleteBook, hnone]

theorem deleteBook_of_first_match {p : String} (l r : List Book) (b : Book)
    (hl : ∀ c ∈ l, idMatches p c = false) (hb : idMatches p b = true) :
    deleteBook (l ++ b :: r) p = (⟨200, .book b⟩, l ++ r) := by
  have hidx : (l ++ b :: r).findIdx? (idMatches p) = some l.length := by
    induction l with
    | nil => simp [List.findIdx?_cons, hb]
    | cons a t ih =>
      have ha : idMatches p a = false := hl a (List.mem_cons_self _ _)
      have ht := ih (fun c hc => hl c (List.mem_cons_of_mem _ hc))
      simp [List.findIdx?_cons, ha, List.findIdx?_succ, ht]
  have hget : (l ++ b :: r).get? l.length = some b := by
    rw [List.get?_eq_getElem?, List.getElem?_append_right (le_refl _)]
    simp
  have herase : (l ++ b :: r).eraseIdx l.length = l ++ r := by
    rw [List.eraseIdx_append_of_length_le (le_refl _)]
    simp
  simp only [deleteBook, hidx, hget, herase]

/-- C10. On every reachable store and for every id parameter: when no record has
the id, delete answers 404 and leaves the store as it was; when the record `b` has
the id, delete answers 200 with `b`, the new store is the old one with `b` alone
taken out (the records before and after it are kept, in their order), and a
following get-by-id with the same parameter answers 404.  The same holds for the
request `DELETE /books/:id` through the router. -/
theorem delete_removes_exactly_the_record_with_the_id {s : List Book} (h : Reachable s)
    (rt : Runtime) (q : Query) (body : ReqBody) (p : String) (hp : p ≠ "") :
    handle rt s ⟨.DELETE, ["books", p], q, body⟩ = deleteBook s p
      ∧ ((∀ b ∈ s, idMatches p b = false) →
          deleteBook s p = (⟨404, .error "Book not found."⟩, s))
      ∧ (∀ b ∈ s, idMatches p b = true → ∃ l r,
          s = l ++ b :: r
            ∧ deleteBook s p = (⟨200, .book b⟩, l ++ r)
            ∧ b ∉ l ++ r
            ∧ getBook (l ++ r) p = (⟨404, .error "Book not found."⟩, l ++ r)) := by
  refine ⟨handle_delete_two_segments rt s p q body hp, deleteBook_of_no_match, ?_⟩
  intro b hb hm
  obtain ⟨l, r, rfl⟩ := List.append_of_mem hb
  have hinc := idsIncreasing_of_reachable h
  have happ := List.pairwise_append.mp hinc
  have hl : ∀ c ∈ l, c.id < b.id := fun c hc => happ.2.2 c hc b (List.mem_cons_self _ _)
  have hr : ∀ c ∈ r, b.id < c.id := (List.pairwise_cons.mp happ.2.1).1
  have hne : ∀ c ∈ l ++ r, c.id ≠ b.id := by
    intro c hc
    rcases List.mem_append.mp hc with hc | hc
    · exact Nat.ne_of_lt (hl c hc)
    · exact Nat.ne_of_gt (hr c hc)
  have hno : ∀ c ∈ l ++ r, idMatches p c = false :=
    fun c hc => idMatches_eq_false_of_id_ne hm (hne c hc)
  refine ⟨l, r, rfl, ?_, ?_, ?_⟩
  · exact deleteBook_of_first_match l r b (fun c hc => hno c (List.mem_append_left _ hc)) hm
  · intro hmem
    exact hne b hmem rfl
  · simp [getBook, find?_eq_none_of_no_match hno, notFound]

theorem delete_removes_exactly_the_record_with_the_id_witness :
    Reachable (seedBooks 0 0)
      ∧ handle sampleRuntime (seedBooks 0 0) ⟨.DELETE, ["books", "1"], {}, {}⟩
        = (⟨200, .book ⟨1, .str "1984", .str "George Orwell", 0, .bool false, .str "unread"⟩⟩,
            [⟨2, .str "The Alchemist", .str "Paulo Coelho", 0, .bool true, .str "completed"⟩]) := by
  refine ⟨Reachable.seed 0 0, ?_⟩
  rw [(delete_removes_exactly_the_record_with_the_id (Reachable.seed 0 0) sampleRuntime {} {}
    "1" (by decide)).1]
  decide


/-! ## Updates in place -/

theorem exists_first_match {p : String} :
    ∀ {s : List Book}, (∃ b ∈ s, idMatches p b = true) →
      ∃ l b r, s = l ++ b :: r ∧ (∀ c ∈ l, idMatches p c = false) ∧ idMatches p b = true
  | [], h => by
    obtain ⟨b, hb, _⟩ := h
    simp at hb
  | a :: t, h => by
    by_cases ha : idMatches p a = true
    · exact ⟨[], a, t, rfl, by simp, ha⟩
    · have ht : ∃ b ∈ t, idMatches p b = true := by
        obtain ⟨b, hb, hm⟩ := h
        rcases List.mem_cons.mp hb with rfl | hb
        · exact absurd hm ha
        · exact ⟨b, hb, hm⟩
      obtain ⟨l, b, r, hs, hl, hb⟩ := exists_first_match ht
      refine ⟨a :: l, b, r, by simp [hs], ?_, hb⟩
      intro c hc
      rcases List.mem_cons.mp hc with rfl | hc
      · simpa using ha
      · exact hl c hc

theorem find?_of_first_match {p : String} (l r : List Book) (b : Book)
    (hl : ∀ c ∈ l, idMatches p c = false) (hb : idMatches p b = true) :
    (l ++ b :: r).find? (idMatches p) = some b := by
  induction l with
  | nil => simp [hb]
  | cons a t ih =>
    have ha : idMatches p a = false := hl a (List.mem_cons_self _ _)
    simp [ha, ih (fun c hc => hl c (List.mem_cons_of_mem _ hc))]

theorem modifyFirst_of_first_match {p : String} (f : Book → Book) (l r : List Book) (b : Book)
    (hl : ∀ c ∈ l, idMatches p c = false) (hb : idMatches p b = true) :
    modifyFirst (idMatches p) f (l ++ b :: r) = l ++ f b :: r := by
  induction l with
  | nil => simp [modifyFirst, hb]
  | cons a t ih =>
    have ha : idMatches p a = false := hl a (List.mem_cons_self _ _)
    simp [modifyFirst, ha, ih (fun c hc => hl c (List.mem_cons_of_mem _ hc))]

theorem handle_patch_status (rt : Runtime) (books : List Book) (seg : String)
    (q : Query) (body : ReqBody) (hseg : seg ≠ "") :
    handle rt books ⟨.PATCH, ["books", seg, "status"], q, body⟩
      = updateStatus books seg body := by
  have hr : routes.find? (routeMatches ⟨.PATCH, ["books", seg, "status"], q, body⟩)
      = some ⟨.PATCH, [.lit "books", .param, .lit "status"], .updateStatus⟩ := by
    have h1 : pathMatches [.lit "books", .param, .lit "favorite"] ["books", seg, "status"]
        = false := by
      have h0 : (asciiLower "status" == "favorite") = false := by decide
      simp [pathMatches, segMatches, h0]
    have h2 : pathMatches [.lit "books", .param, .lit "status"] ["books", seg, "status"]
        = true := by
      have h0 : (asciiLower "books" == "books") = true := by decide
      have h3 : (asciiLower "status" == "status") = true := by decide
      simp [pathMatches, segMatches, hseg, h0, h3]
    simp [routes, List.find?, routeMatches, h1, h2]
  simp only [handle, hr, runHandler, paramOf]

theorem handle_patch_favorite (rt : Runtime) (books : List Book) (seg : String)
    (q : Query) (body : ReqBody) (hseg : seg ≠ "") :
    handle rt books ⟨.PATCH, ["books", seg, "favorite"], q, body⟩
      = toggleFavorite books seg := by
  have hr : routes.find? (routeMatches ⟨.PATCH, ["books", seg, "favorite"], q, body⟩)
      = some ⟨.PATCH, [.lit "books", .param, .lit "favorite"], .toggleFavorite⟩ := by
    have h2 : pathMatches [.lit "books", .param, .lit "favorite"] ["books", seg, "favorite"]
        = true := by
      have h0 : (asciiLower "books" == "books") = true := by decide
      have h3 : (asciiLower "favorite" == "favorite") = true := by decide
      simp [pathMatches, segMatches, hseg, h0, h3]
    simp [routes, List.find?, routeMatches, h2]
  simp only [handle, hr, runHandler, paramOf]

theorem handle_put (rt : Runtime) (books : List Book) (seg : String)
    (q : Query) (body : ReqBody) (hseg : seg ≠ "") :
    handle rt books ⟨.PUT, ["books", seg], q, body⟩ = updateBook books seg body := by
  have hr : routes.find? (routeMatches ⟨.PUT, ["books", seg], q, body⟩)
      = some ⟨.PUT, [.lit "books", .param], .update⟩ := by
    have h2 : pathMatches [.lit "books", .param] ["books", seg] = true := by
      have h0 : (asciiLower "books" == "books") = true := by decide
      simp [pathMatches, segMatches, hseg, h0]
    simp [routes, List.find?, routeMatches, h2]
  simp only [handle, hr, runHandler, paramOf]

theorem status_error_message :
    "Status must be one of: " ++ ", ".intercalate validStatuses
      = "Status must be one of: unread, reading, completed" := by
  decide

/-- C11. On every store and for every id parameter: a status that is not one of
'unread', 'reading', 'completed' (a missing status included) is answered 400 with
the message listing the three values, whether or not a record has the id, and the
store is left as it was; a valid status is answered 404, store unchanged, when no
record has the id, and otherwise 200 with the confirmation message and the record
found, whose status is now the given value and whose other fields are as before,
the store being the old one with that record replaced in its place.  The request
`PATCH /books/:id/status` reaches this operation through the router. -/
theorem status_update_validates_then_sets_status (rt : Runtime) (s : List Book)
    (p : String) (q : Query) (body : ReqBody) :
    (body.status ≠ some (.str "unread") → body.status ≠ some (.str "reading") →
        body.status ≠ some (.str "completed") →
        updateStatus s p body
          = (⟨400, .error "Status must be one of: unread, reading, completed"⟩, s))
      ∧ (∀ v : String, v = "unread" ∨ v = "reading" ∨ v = "completed" →
          body.status = some (.str v) →
          ((∀ b ∈ s, idMatches p b = false) →
              updateStatus s p body = (⟨404, .error "Book not found."⟩, s))
            ∧ (∀ l b r, s = l ++ b :: r → (∀ c ∈ l, idMatches p c = false) →
                idMatches p b = true →
                updateStatus s p body
                  = (⟨200, .messageBook "Status updated."
                        ⟨b.id, b.title, b.author, b.createdAt, b.isFavorite, .str v⟩⟩,
                      l ++ ⟨b.id, b.title, b.author, b.createdAt, b.isFavorite, .str v⟩ :: r)))
      ∧ (p ≠ "" → handle rt s ⟨.PATCH, ["books", p, "status"], q, body⟩
          = updateStatus s p body) := by
  refine ⟨?_, ?_, handle_patch_status rt s p q body⟩
  · intro h1 h2 h3
    have hinv : isValidStatus body.status = false := by
      unfold isValidStatus
      split
      · rename_i v hv
        have hne : v ≠ "unread" ∧ v ≠ "reading" ∧ v ≠ "completed" := by
          refine ⟨?_, ?_, ?_⟩ <;> intro hv' <;> subst hv' <;> simp_all
        simp [validStatuses, hne.1, hne.2.1, hne.2.2]
      · rfl
    simp [updateStatus, hinv, status_error_message]
  · intro v hv hst
    have hval : isValidStatus body.status = true := by
      rw [hst]
      rcases hv with rfl | rfl | rfl <;> decide
    refine ⟨?_, ?_⟩
    · intro hno
      simp [updateStatus, hval, find?_eq_none_of_no_match hno, notFound]
    · intro l b r hs hl hb
      subst hs
      have hval2 : isValidStatus (some (.str v)) = true := hst ▸ hval
      simp [updateStatus, hval2, find?_of_first_match l r b hl hb,
        modifyFirst_of_first_match _ l r b hl hb, hst]

theorem status_update_validates_then_sets_status_witness :
    updateStatus (seedBooks 0 0) "7" { status := some (.str "archived") }
        = (⟨400, .error "Status must be one of: unread, reading, completed"⟩, seedBooks 0 0)
      ∧ updateStatus (seedBooks 0 0) "1" { status := some (.str "reading") }
        = (⟨200, .messageBook "Status updated."
              ⟨1, .str "1984", .str "George Orwell", 0, .bool false, .str "reading"⟩⟩,
            [⟨1, .str "1984", .str "George Orwell", 0, .bool false, .str "reading"⟩,
             ⟨2, .str "The Alchemist", .str "Paulo Coelho", 0, .bool true, .str "completed"⟩]) :=
  ⟨(status_update_validates_then_sets_status sampleRuntime (seedBooks 0 0) "7" {}
      { status := some (.str "archived") }).1 (by decide) (by decide) (by decide),
    ((status_update_validates_then_sets_status sampleRuntime (seedBooks 0 0) "1" {}
      { status := some (.str "reading") }).2.1 "reading" (Or.inr (Or.inl rfl)) rfl).2
      [] _ _ rfl (by simp) (by decide)⟩


/-- C12. On the store reached from the seed by creating a record with
`isFavorite: "yes"` (create stores the value as given, without the boolean check
that the full update makes), two toggles of that record leave its `isFavorite` at
`true`, not at the original "yes": the first toggle stores `!"yes"`, that is
`false`, and the second stores `true`; the store differs from the one before the
two toggles. -/
theorem toggling_twice_does_not_restore_non_boolean_flag :
    Reachable (createBook sampleRuntime (seedBooks 0 0)
        { title := some (.str "Dune"), author := some (.str "Herbert"),
          isFavorite := some (.str "yes") }).2
      ∧ (createBook sampleRuntime (seedBooks 0 0)
          { title := some (.str "Dune"), author := some (.str "Herbert"),
            isFavorite := some (.str "yes") }).2
        = seedBooks 0 0 ++ [⟨3, .str "Dune", .str "Herbert", 1000, .str "yes", .str "unread"⟩]
      ∧ toggleFavorite (toggleFavorite
          (seedBooks 0 0 ++ [⟨3, .str "Dune", .str "Herbert", 1000, .str "yes", .str "unread"⟩])
          "3").2 "3"
        = (⟨200, .messageBook "Favorite status toggled."
              ⟨3, .str "Dune", .str "Herbert", 1000, .bool true, .str "unread"⟩⟩,
            seedBooks 0 0
              ++ [⟨3, .str "Dune", .str "Herbert", 1000, .bool true, .str "unread"⟩])
      ∧ JVal.bool true ≠ JVal.str "yes" := by
  refine ⟨Reachable.create _ _ (Reachable.seed 0 0), ?_, ?_, ?_⟩ <;> decide

theorem split_at_record_of_reachable {s : List Book} (h : Reachable s) {p : String} {b : Book}
    (hb : b ∈ s) (hm : idMatches p b = true) :
    ∃ l r, s = l ++ b :: r ∧ ∀ c ∈ l ++ r, idMatches p c = false := by
  obtain ⟨l, r, rfl⟩ := List.append_of_mem hb
  have happ := List.pairwise_append.mp (idsIncreasing_of_reachable h)
  have hl : ∀ c ∈ l, c.id < b.id := fun c hc => happ.2.2 c hc b (List.mem_cons_self _ _)
  have hr : ∀ c ∈ r, b.id < c.id := (List.pairwise_cons.mp happ.2.1).1
  refine ⟨l, r, rfl, ?_⟩
  intro c hc
  rcases List.mem_append.mp hc with hc | hc
  · exact idMatches_eq_false_of_id_ne hm (Nat.ne_of_lt (hl c hc))
  · exact idMatches_eq_false_of_id_ne hm (Nat.ne_of_gt (hr c hc))

theorem applyUpdate_createdAt (body : ReqBody) (b : Book) :
    (applyUpdate body b).createdAt = b.createdAt := by
  unfold applyUpdate
  simp only
  split_ifs <;> split <;> rfl

theorem applyUpdate_title (body : ReqBody) (b : Book) :
    FieldOverwritten body.title b.title (applyUpdate body b).title := by
  have ht : (applyUpdate body b).title
      = if falsy body.title then b.title else body.title.getD .null := by
    unfold applyUpdate
    simp only
    split_ifs <;> split <;> rfl
  rw [ht]
  refine ⟨?_, ?_, ?_⟩
  · intro h
    simp [h, falsy]
  · intro v h hv
    simp [h, falsy, hv]
  · intro v h hv
    simp [h, falsy, hv]

theorem applyUpdate_author (body : ReqBody) (b : Book) :
    FieldOverwritten body.author b.author (applyUpdate body b).author := by
  have ht : (applyUpdate body b).author
      = if falsy body.author then b.author else body.author.getD .null := by
    unfold applyUpdate
    simp only
    split_ifs <;> split <;> rfl
  rw [ht]
  refine ⟨?_, ?_, ?_⟩
  · intro h
    simp [h, falsy]
  · intro v h hv
    simp [h, falsy, hv]
  · intro v h hv
    simp [h, falsy, hv]

theorem applyUpdate_status (body : ReqBody) (b : Book) :
    FieldOverwritten body.status b.status (applyUpdate body b).status := by
  have ht : (applyUpdate body b).status
      = if falsy body.status then b.status else body.status.getD .null := by
    unfold applyUpdate
    simp only
    split_ifs <;> split <;> rfl
  rw [ht]
  refine ⟨?_, ?_, ?_⟩
  · intro h
    simp [h, falsy]
  · intro v h hv
    simp [h, falsy, hv]
  · intro v h hv
    simp [h, falsy, hv]

theorem applyUpdate_isFavorite (body : ReqBody) (b : Book) :
    FlagOverwritten body.isFavorite b.isFavorite (applyUpdate body b).isFavorite := by
  refine ⟨?_, ?_⟩
  · intro v h
    unfold applyUpdate
    simp only [h]
    split_ifs <;> rfl
  · intro h
    unfold applyUpdate
    simp only
    split_ifs <;> rfl


/-- C13. On every reachable store, a full update addressed to the id of a live
record `b` is answered 200 with the updated record `b'`, and the new store is the
old one with `b'` in the place of `b` (every other record and the order are
kept).  In `b'` the id and `createdAt` are those of `b`; each of title, author and
status is the stored value when the key is missing and the supplied value when it
is non-empty (status without any check against the enum); `isFavorite` is the
supplied value when that is a boolean and the stored value otherwise.  The
request `PUT /books/:id` reaches this operation through the router. -/
theorem full_update_overwrites_only_supplied_fields {s : List Book} (h : Reachable s)
    (rt : Runtime) (q : Query) (p : String) (body : ReqBody) (b : Book)
    (hb : b ∈ s) (hm : idMatches p b = true) :
    ∃ l r b', s = l ++ b :: r
      ∧ updateBook s p body = (⟨200, .book b'⟩, l ++ b' :: r)
      ∧ b'.id = b.id ∧ b'.createdAt = b.createdAt
      ∧ FieldOverwritten body.title b.title b'.title
      ∧ FieldOverwritten body.author b.author b'.author
      ∧ FieldOverwritten body.status b.status b'.status
      ∧ FlagOverwritten body.isFavorite b.isFavorite b'.isFavorite
      ∧ (p ≠ "" → handle rt s ⟨.PUT, ["books", p], q, body⟩ = updateBook s p body) := by
  obtain ⟨l, r, hs, hno⟩ := split_at_record_of_reachable h hb hm
  have hl : ∀ c ∈ l, idMatches p c = false := fun c hc => hno c (List.mem_append_left _ hc)
  refine ⟨l, r, applyUpdate body b, hs, ?_, applyUpdate_id body b, applyUpdate_createdAt body b,
    applyUpdate_title body b, applyUpdate_author body b, applyUpdate_status body b,
    applyUpdate_isFavorite body b, handle_put rt s p q body⟩
  subst hs
  simp [updateBook, find?_of_first_match l r b hl hm, modifyFirst_of_first_match _ l r b hl hm]

theorem full_update_overwrites_only_supplied_fields_witness :
    ∃ l r b', seedBooks 0 0
          = l ++ ⟨2, .str "The Alchemist", .str "Paulo Coelho", 0, .bool true, .str "completed"⟩
              :: r
      ∧ updateBook (seedBooks 0 0) "2"
          { title := some (.str "O Alquimista"), status := some (.str "shelved"),
            isFavorite := some (.str "no") }
        = (⟨200, .book b'⟩, l ++ b' :: r)
      ∧ b'.title = .str "O Alquimista" ∧ b'.author = .str "Paulo Coelho"
      ∧ b'.status = .str "shelved" ∧ b'.isFavorite = .bool true := by
  obtain ⟨l, r, b', hs, hu, _, _, ht, ha, hst, hf, _⟩ :=
    full_update_overwrites_only_supplied_fields (Reachable.seed 0 0) sampleRuntime {} "2"
      { title := some (.str "O Alquimista"), status := some (.str "shelved"),
        isFavorite := some (.str "no") }
      ⟨2, .str "The Alchemist", .str "Paulo Coelho", 0, .bool true, .str "completed"⟩
      (by simp [seedBooks]) (by decide)
  exact ⟨l, r, b', hs, hu, ht.2.1 _ rfl rfl, ha.1 rfl, hst.2.1 _ rfl rfl,
    hf.2 (by intro v hv; cases hv)⟩


/-! ## Search -/

theorem includes_iff_infix : ∀ hay needle : List Char,
    includes hay needle = true ↔ needle <:+: hay
  | [], needle => by
    simp [includes, List.isEmpty_iff]
  | c :: cs, needle => by
    rw [includes, Bool.or_eq_true, List.isPrefixOf_iff_prefix, includes_iff_infix cs needle,
      List.infix_cons_iff]

theorem filterThrowing_of_total {α : Type} (p : α → Option Bool) (f : α → Bool) :
    ∀ l : List α, (∀ a ∈ l, p a = some (f a)) → filterThrowing p l = some (l.filter f)
  | [], _ => rfl
  | a :: t, h => by
    have ha := h a (List.mem_cons_self _ _)
    have ht := filterThrowing_of_total p f t (fun x hx => h x (List.mem_cons_of_mem _ hx))
    cases hf : f a <;> simp [filterThrowing, ha, ht, hf]

theorem searchMatch_of_strings (rt : Runtime) (query : String) (b : Book) (t a : String)
    (ht : b.title = .str t) (ha : b.author = .str a) :
    searchMatch rt query b
      = some (includes (rt.toLowerCase t).toList (rt.toLowerCase query).toList
          || includes (rt.toLowerCase a).toList (rt.toLowerCase query).toList) := by
  unfold searchMatch includesLower
  rw [ht, ha]
  simp only
  cases hc : includes (rt.toLowerCase t).toList (rt.toLowerCase query).toList <;> simp

/-- C14 (as stated, refuted). On the store reached from the seed by creating a
record whose title is the number 7, the search operation with `query=orwell` is
answered 500: the callback calls `toLowerCase` on a number. -/
theorem search_fails_on_numeric_title :
    Reachable (createBook sampleRuntime (seedBooks 0 0)
        { title := some (.num 7), author := some (.str "A") }).2
      ∧ searchBooks sampleRuntime (createBook sampleRuntime (seedBooks 0 0)
          { title := some (.num 7), author := some (.str "A") }).2 { query := some "orwell" }
        = (⟨500, .typeError⟩,
            seedBooks 0 0 ++ [⟨3, .num 7, .str "A", 1000, .bool false, .str "unread"⟩]) := by
  refine ⟨Reachable.create _ _ (Reachable.seed 0 0), ?_⟩
  decide

/-- C14 (amended). On every store whose titles and authors are strings and for
every non-empty query string, the search operation is answered 200 with exactly
the records, in store order and without pagination, whose title or author
contains the query as a substring when letter case is ignored; on every store a
missing or empty query is answered 400 with an error message. -/
theorem search_returns_records_containing_query (rt : Runtime) (s : List Book) (q : Query) :
    ((q.query = none ∨ q.query = some "") →
        searchBooks rt s q = (⟨400, .error "Query required."⟩, s))
      ∧ (∀ query : String, query ≠ "" → q.query = some query →
          (∀ b ∈ s, (∃ t, b.title = .str t) ∧ (∃ a, b.author = .str a)) →
          ∃ keep : Book → Bool,
            (∀ b ∈ s, keep b = true ↔
              (ContainsIgnoringCase rt query b.title ∨ ContainsIgnoringCase rt query b.author))
            ∧ searchBooks rt s q = (⟨200, .books (s.filter keep)⟩, s)) := by
  refine ⟨?_, ?_⟩
  · rintro (h | h) <;> simp [searchBooks, h]
  · intro query hq hsome hstr
    refine ⟨fun b => (searchMatch rt query b).getD false, ?_, ?_⟩
    · intro b hb
      obtain ⟨⟨t, ht⟩, ⟨a, ha⟩⟩ := hstr b hb
      simp only [searchMatch_of_strings rt query b t a ht ha, Option.getD_some,
        Bool.or_eq_true, includes_iff_infix, ContainsIgnoringCase, ht, ha, JVal.str.injEq,
        exists_eq_left']
    · have htot : ∀ b ∈ s, searchMatch rt query b
          = some ((fun b => (searchMatch rt query b).getD false) b) := by
        intro b hb
        obtain ⟨⟨t, ht⟩, ⟨a, ha⟩⟩ := hstr b hb
        simp [searchMatch_of_strings rt query b t a ht ha]
      simp [searchBooks, hsome, hq, filterThrowing_of_total _ _ s htot]

theorem search_returns_records_containing_query_witness :
    ∃ keep : Book → Bool,
      (∀ b ∈ seedBooks 0 0, keep b = true ↔
        (ContainsIgnoringCase sampleRuntime "orwell" b.title
          ∨ ContainsIgnoringCase sampleRuntime "orwell" b.author))
      ∧ searchBooks sampleRuntime (seedBooks 0 0) { query := some "orwell" }
        = (⟨200, .books ((seedBooks 0 0).filter keep)⟩, seedBooks 0 0) :=
  (search_returns_records_containing_query sampleRuntime (seedBooks 0 0)
    { query := some "orwell" }).2 "orwell" (by decide) rfl (by simp [seedBooks])


/-! ## Recommend and stats -/

/-- C15. The recommend operation answers 404 on the empty store.  On a non-empty
store (of fewer than `2 ^ 32` records, as every JavaScript array has), for every
random value `r` with `0 ≤ r < 1`, that is, every double `mant / 2 ^ exp` with
`mant < 2 ^ 53` and `mant < 2 ^ exp`, the index `floor(r * size)`, computed with
the rounded double product, is a valid index of the store, and the answer is 200
with the record at that index, a record of the store. -/
theorem recommend_returns_record_of_store (rt : Runtime) (s : List Book) :
    (s = [] → recommend rt s = (⟨404, .error "No books available."⟩, s))
      ∧ (s ≠ [] → s.length < 2 ^ 32 → rt.random.mant < 2 ^ 53 →
          rt.random.mant < 2 ^ rt.random.exp →
          randomIndex rt.random s.length < s.length
            ∧ ∃ b, s.get? (randomIndex rt.random s.length) = some b ∧ b ∈ s
              ∧ recommend rt s = (⟨200, .book b⟩, s)) := by
  refine ⟨?_, ?_⟩
  · intro h
    subst h
    rfl
  · intro hne hlen hm hlt
    have hpos : 0 < s.length := List.length_pos.mpr hne
    have h53 : s.length < 2 ^ 53 := lt_trans hlen (by decide)
    have hidx : randomIndex rt.random s.length < s.length := randomIndex_lt hm hlt hpos h53
    refine ⟨hidx, s.get ⟨randomIndex rt.random s.length, hidx⟩, List.get?_eq_get hidx,
      List.get_mem _ _ _, ?_⟩
    simp [recommend, Nat.ne_of_gt hpos, List.getElem?_eq_getElem hidx]

theorem recommend_returns_record_of_store_witness :
    randomIndex ⟨(2 ^ 54 - 1) / 7, 52⟩ 7 = 4
      ∧ ∃ b, (seedBooks 0 0).get? (randomIndex ⟨1, 1⟩ (seedBooks 0 0).length) = some b
        ∧ b ∈ seedBooks 0 0
        ∧ recommend { sampleRuntime with random := ⟨1, 1⟩ } (seedBooks 0 0)
          = (⟨200, .book b⟩, seedBooks 0 0) :=
  ⟨by decide,
    ((recommend_returns_record_of_store { sampleRuntime with random := ⟨1, 1⟩ }
      (seedBooks 0 0)).2 (by simp [seedBooks]) (by decide) (by decide) (by decide)).2⟩

/-! ## Error answers and read-only operations -/

theorem listBooks_store (rt : Runtime) (s : List Book) (q : Query) :
    (listBooks rt s q).2 = s := by
  unfold listBooks
  split <;> rfl

theorem getBook_store (s : List Book) (p : String) : (getBook s p).2 = s := by
  unfold getBook
  split <;> rfl

theorem searchBooks_store (rt : Runtime) (s : List Book) (q : Query) :
    (searchBooks rt s q).2 = s := by
  unfold searchBooks
  split
  · rfl
  · split_ifs
    · rfl
    · split <;> rfl

theorem recommend_store (rt : Runtime) (s : List Book) : (recommend rt s).2 = s := by
  unfold recommend
  split_ifs
  · rfl
  · split <;> rfl

theorem stats_store (s : List Book) : (stats s).2 = s := rfl

theorem createBook_store_of_error (rt : Runtime) (s : List Book) (body : ReqBody)
    (h : (createBook rt s body).1.status ≠ 201) : (createBook rt s body).2 = s := by
  unfold createBook at h ⊢
  simp only at h ⊢
  split_ifs at h ⊢
  · rfl
  · exact absurd rfl h

theorem updateBook_store_of_error (s : List Book) (p : String) (body : ReqBody)
    (h : (updateBook s p body).1.status ≠ 200) : (updateBook s p body).2 = s := by
  rcases hf : s.find? (idMatches p) with _ | b <;> simp [updateBook, hf] at h ⊢

theorem toggleFavorite_store_of_error (s : List Book) (p : String)
    (h : (toggleFavorite s p).1.status ≠ 200) : (toggleFavorite s p).2 = s := by
  rcases hf : s.find? (idMatches p) with _ | b <;> simp [toggleFavorite, hf] at h ⊢

theorem updateStatus_store_of_error (s : List Book) (p : String) (body : ReqBody)
    (h : (updateStatus s p body).1.status ≠ 200) : (updateStatus s p body).2 = s := by
  rcases hv : isValidStatus body.status with _ | _
  · simp [updateStatus, hv]
  · rcases hf : s.find? (idMatches p) with _ | b <;> simp [updateStatus, hv, hf] at h ⊢

theorem deleteBook_store_of_error (s : List Book) (p : String)
    (h : (deleteBook s p).1.status ≠ 200) : (deleteBook s p).2 = s := by
  rcases hf : s.findIdx? (idMatches p) with _ | i
  · simp [deleteBook, hf]
  · rcases hg : s[i]? with _ | b <;> simp [deleteBook, hf, hg] at h

theorem handle_store_of_error (rt : Runtime) (s : List Book) (req : Request)
    (h : (handle rt s req).1.status ≠ 200 ∧ (handle rt s req).1.status ≠ 201) :
    (handle rt s req).2 = s := by
  rcases hr : routes.find? (routeMatches req) with _ | r
  · simp [handle, hr]
  · simp only [handle, hr] at h ⊢
    rcases hh : r.handler <;> simp only [runHandler, hh] at h ⊢
    · exact listBooks_store _ _ _
    · exact getBook_store _ _
    · exact searchBooks_store _ _ _
    · exact recommend_store _ _
    · exact stats_store _
    · exact createBook_store_of_error _ _ _ h.2
    · exact updateBook_store_of_error _ _ _ h.1
    · exact toggleFavorite_store_of_error _ _ h.1
    · exact updateStatus_store_of_error _ _ _ h.1
    · exact deleteBook_store_of_error _ _ h.1
    · exact absurd rfl h.1

/-- C16. Every operation that answers with an error leaves the store exactly as
it was: create with a missing or empty title or author (400), search with a
missing or empty query (400), status update with an invalid status (400); get,
full update, toggle-favorite, status update and delete on an id that no record has
(404), and recommend on the empty store (404).  More generally, every request
through the router whose answer is neither 200 nor 201 leaves the store as it
was. -/
theorem error_answers_leave_store_unchanged (rt : Runtime) (s : List Book) (p : String)
    (q : Query) (body : ReqBody) :
    (falsy body.title = true ∨ falsy body.author = true →
        createBook rt s body = (⟨400, .error "Title and author required."⟩, s))
      ∧ (q.query = none ∨ q.query = some "" →
          searchBooks rt s q = (⟨400, .error "Query required."⟩, s))
      ∧ (isValidStatus body.status = false →
          updateStatus s p body
            = (⟨400, .error "Status must be one of: unread, reading, completed"⟩, s))
      ∧ ((∀ b ∈ s, idMatches p b = false) →
          getBook s p = (⟨404, .error "Book not found."⟩, s)
            ∧ updateBook s p body = (⟨404, .error "Book not found."⟩, s)
            ∧ toggleFavorite s p = (⟨404, .error "Book not found."⟩, s)
            ∧ (isValidStatus body.status = true →
                updateStatus s p body = (⟨404, .error "Book not found."⟩, s))
            ∧ deleteBook s p = (⟨404, .error "Book not found."⟩, s))
      ∧ (s = [] → recommend rt s = (⟨404, .error "No books available."⟩, s))
      ∧ (∀ req : Request, (handle rt s req).1.status ≠ 200 →
          (handle rt s req).1.status ≠ 201 → (handle rt s req).2 = s) := by
  refine ⟨?_, ?_, ?_, ?_, ?_, ?_⟩
  · rintro (h | h) <;> simp [createBook, h]
  · rintro (h | h) <;> simp [searchBooks, h]
  · intro h
    simp [updateStatus, h, status_error_message]
  · intro hno
    have hf := find?_eq_none_of_no_match hno
    refine ⟨?_, ?_, ?_, ?_, deleteBook_of_no_match hno⟩
    · simp [getBook, hf, notFound]
    · simp [updateBook, hf, notFound]
    · simp [toggleFavorite, hf, notFound]
    · intro hv
      simp [updateStatus, hv, hf, notFound]
  · intro h
    subst h
    rfl
  · intro req h1 h2
    exact handle_store_of_error rt s req ⟨h1, h2⟩

theorem error_answers_leave_store_unchanged_witness :
    createBook sampleRuntime (seedBooks 0 0) { title := some (.str ""), author := none }
        = (⟨400, .error "Title and author required."⟩, seedBooks 0 0)
      ∧ toggleFavorite (seedBooks 0 0) "9" = (⟨404, .error "Book not found."⟩, seedBooks 0 0)
      ∧ (handle sampleRuntime (seedBooks 0 0) ⟨.DELETE, ["books", "9"], {}, {}⟩).2
          = seedBooks 0 0 :=
  ⟨(error_answers_leave_store_unchanged sampleRuntime (seedBooks 0 0) "9" {}
      { title := some (.str ""), author := none }).1 (Or.inl (by decide)),
    ((error_answers_leave_store_unchanged sampleRuntime (seedBooks 0 0) "9" {}
      {}).2.2.2.1 (by decide)).2.2.1,
    (error_answers_leave_store_unchanged sampleRuntime (seedBooks 0 0) "9" {}
      {}).2.2.2.2.2 ⟨.DELETE, ["books", "9"], {}, {}⟩ (by decide) (by decide)⟩


theorem status_counts_le_length : ∀ l : List Book,
    l.countP (fun b => decide (b.status = JVal.str "completed"))
        + l.countP (fun b => decide (b.status = JVal.str "reading"))
        + l.countP (fun b => decide (b.status = JVal.str "unread")) ≤ l.length
      ∧ (l.countP (fun b => decide (b.status = JVal.str "completed"))
            + l.countP (fun b => decide (b.status = JVal.str "reading"))
            + l.countP (fun b => decide (b.status = JVal.str "unread")) = l.length
          ↔ ∀ b ∈ l, b.status = JVal.str "completed" ∨ b.status = JVal.str "reading"
              ∨ b.status = JVal.str "unread")
  | [] => by simp
  | a :: t => by
    obtain ⟨hle, hiff⟩ := status_counts_le_length t
    have hpt : (if decide (a.status = JVal.str "completed") = true then 1 else 0)
          + (if decide (a.status = JVal.str "reading") = true then 1 else 0)
          + (if decide (a.status = JVal.str "unread") = true then 1 else 0) ≤ 1
        ∧ ((if decide (a.status = JVal.str "completed") = true then 1 else 0)
            + (if decide (a.status = JVal.str "reading") = true then 1 else 0)
            + (if decide (a.status = JVal.str "unread") = true then 1 else 0) = 1
          ↔ (a.status = JVal.str "completed" ∨ a.status = JVal.str "reading"
              ∨ a.status = JVal.str "unread")) := by
      by_cases h1 : a.status = JVal.str "completed"
      · simp [h1]
      · by_cases h2 : a.status = JVal.str "reading"
        · simp [h2]
        · by_cases h3 : a.status = JVal.str "unread"
          · simp [h3]
          · simp [h1, h2, h3]
    obtain ⟨hple, hpiff⟩ := hpt
    simp only [List.countP_cons, List.length_cons, List.forall_mem_cons]
    refine ⟨by omega, ⟨fun h => ?_, fun h => ?_⟩⟩
    · exact ⟨hpiff.mp (by omega), hiff.mp (by omega)⟩
    · have e1 := hpiff.mpr h.1
      have e2 := hiff.mpr h.2
      omega

/-- C17. On every store the stats operation is answered 200 with `total` the
number of records, `favorites` the number of records whose `isFavorite` is truthy,
and `completed`, `reading`, `unread` the numbers of records whose status is exactly
that string; so `completed + reading + unread ≤ total`, with equality exactly when
the status of every record is one of the three values. -/
theorem stats_counts_records (s : List Book) :
    stats s
        = (⟨200, .stats s.length (s.countP (fun b => b.isFavorite.truthy))
              (s.countP (fun b => decide (b.status = JVal.str "completed")))
              (s.countP (fun b => decide (b.status = JVal.str "reading")))
              (s.countP (fun b => decide (b.status = JVal.str "unread")))⟩, s)
      ∧ s.countP (fun b => decide (b.status = JVal.str "completed"))
          + s.countP (fun b => decide (b.status = JVal.str "reading"))
          + s.countP (fun b => decide (b.status = JVal.str "unread")) ≤ s.length
      ∧ (s.countP (fun b => decide (b.status = JVal.str "completed"))
            + s.countP (fun b => decide (b.status = JVal.str "reading"))
            + s.countP (fun b => decide (b.status = JVal.str "unread")) = s.length
          ↔ ∀ b ∈ s, b.status = JVal.str "completed" ∨ b.status = JVal.str "reading"
              ∨ b.status = JVal.str "unread") := by
  refine ⟨?_, (status_counts_le_length s).1, (status_counts_le_length s).2⟩
  simp [stats, List.countP_eq_length_filter]


/-! ## Ids after a deletion -/

theorem mem_modifyFirst {p : Book → Bool} {f : Book → Book} :
    ∀ {s : List Book} {b : Book}, b ∈ modifyFirst p f s → ∃ a ∈ s, b = a ∨ b = f a
  | [], b, h => by simp [modifyFirst] at h
  | a :: t, b, h => by
    unfold modifyFirst at h
    split_ifs at h
    · rcases List.mem_cons.mp h with rfl | h
      · exact ⟨a, List.mem_cons_self _ _, Or.inr rfl⟩
      · exact ⟨b, List.mem_cons_of_mem _ h, Or.inl rfl⟩
    · rcases List.mem_cons.mp h with rfl | h
      · exact ⟨b, List.mem_cons_self _ _, Or.inl rfl⟩
      · obtain ⟨c, hc, hbc⟩ := mem_modifyFirst h
        exact ⟨c, List.mem_cons_of_mem _ hc, hbc⟩

theorem ids_pos_modifyFirst (p : Book → Bool) (f : Book → Book) (hf : ∀ b, (f b).id = b.id)
    {s : List Book} (h : ∀ b ∈ s, 0 < b.id) : ∀ b ∈ modifyFirst p f s, 0 < b.id := by
  intro b hb
  obtain ⟨a, ha, hba | hba⟩ := mem_modifyFirst hb
  · rw [hba]
    exact h a ha
  · rw [hba, hf]
    exact h a ha

theorem ids_pos_of_reachable {s : List Book} (h : Reachable s) : ∀ b ∈ s, 0 < b.id := by
  induction h with
  | seed t1 t2 =>
    intro b hb
    simp only [seedBooks, List.mem_cons, List.mem_singleton, List.not_mem_nil, or_false] at hb
    rcases hb with rfl | rfl <;> simp
  | create rt body _ ih =>
    intro b hb
    unfold createBook at hb
    simp only at hb
    split_ifs at hb
    · exact ih b hb
    · rcases List.mem_append.mp hb with hb | hb
      · exact ih b hb
      · rw [List.mem_singleton.mp hb]
        unfold nextId
        split <;> simp
  | update p body _ ih =>
    unfold updateBook
    split
    · exact ih
    · exact ids_pos_modifyFirst _ _ (applyUpdate_id body) ih
  | toggleFavorite p _ ih =>
    unfold toggleFavorite
    split
    · exact ih
    · exact ids_pos_modifyFirst (idMatches p) toggle (fun _ => rfl) ih
  | updateStatus p body _ ih =>
    unfold updateStatus
    split_ifs
    · exact ih
    · split
      · exact ih
      · exact ids_pos_modifyFirst (idMatches p)
          (fun b => { b with status := body.status.getD .null }) (fun _ => rfl) ih
  | delete p _ ih =>
    unfold deleteBook
    split
    · exact ih
    · split <;> exact fun b hb => ih b (List.eraseIdx_subset _ _ hb)
  | reset _ _ =>
    intro b hb
    simp [resetBooks] at hb

theorem maxId_lt {n : Nat} (hn : 0 < n) :
    ∀ l : List Book, (∀ c ∈ l, c.id < n) → maxId l < n
  | [], _ => by simpa [maxId] using hn
  | a :: t, h => by
    have ha := h a (List.mem_cons_self _ _)
    have ht := maxId_lt hn t (fun c hc => h c (List.mem_cons_of_mem _ hc))
    simp only [maxId, List.foldr_cons] at ht ⊢
    omega

theorem specNextId_eq_maxId_succ (l : List Book) : specNextId l = maxId l + 1 := by
  unfold specNextId
  split_ifs with h
  · subst h
    rfl
  · rfl

theorem createBook_eq_specCreated {s : List Book} (hinc : IdsIncreasing s) (rt : Runtime)
    (body : ReqBody) (title author : JVal)
    (ht : body.title = some title) (ha : body.author = some author)
    (htt : title.truthy = true) (hat : author.truthy = true) :
    createBook rt s body
      = (⟨201, .book (specCreated rt s body title author)⟩,
          s ++ [specCreated rt s body title author]) := by
  simp [createBook, falsy, ht, ha, htt, hat, specCreated, nextId_eq_specNextId hinc]

/-- C18 (as stated, refuted). From the seed, create a record (id 3) and delete
id 2: the reachable store has ids 1 and 3.  Deleting the record with the highest
id, 3, and then creating a record gives the new record id 2, not the deleted
id 3. -/
theorem create_after_deleting_highest_id_can_give_lower_id :
    Reachable (deleteBook (createBook sampleRuntime (seedBooks 0 0)
        { title := some (.str "Dune"), author := some (.str "Herbert") }).2 "2").2
      ∧ (deleteBook (createBook sampleRuntime (seedBooks 0 0)
          { title := some (.str "Dune"), author := some (.str "Herbert") }).2 "2").2
        = [⟨1, .str "1984", .str "George Orwell", 0, .bool false, .str "unread"⟩,
           ⟨3, .str "Dune", .str "Herbert", 1000, .bool false, .str "unread"⟩]
      ∧ deleteBook
          [⟨1, .str "1984", .str "George Orwell", 0, .bool false, .str "unread"⟩,
           ⟨3, .str "Dune", .str "Herbert", 1000, .bool false, .str "unread"⟩] "3"
        = (⟨200, .book ⟨3, .str "Dune", .str "Herbert", 1000, .bool false, .str "unread"⟩⟩,
            [⟨1, .str "1984", .str "George Orwell", 0, .bool false, .str "unread"⟩])
      ∧ createBook sampleRuntime
          [⟨1, .str "1984", .str "George Orwell", 0, .bool false, .str "unread"⟩]
          { title := some (.str "Emma"), author := some (.str "Austen") }
        = (⟨201, .book ⟨2, .str "Emma", .str "Austen", 1000, .bool false, .str "unread"⟩⟩,
            [⟨1, .str "1984", .str "George Orwell", 0, .bool false, .str "unread"⟩,
             ⟨2, .str "Emma", .str "Austen", 1000, .bool false, .str "unread"⟩]) := by
  refine ⟨Reachable.delete _ (Reachable.create _ _ (Reachable.seed 0 0)), ?_, ?_, ?_⟩ <;> decide

/-- C18 (amended). On every reachable store, deleting the record `b` with the
highest id and then performing a valid create gives the new record the id
`max(remaining ids) + 1` (`1` when no record remains): an id that is not greater
than the id of `b`, and the very id of `b` when that was one more than the highest
remaining id.  From the seed store, deleting id 2 and then creating a record
yields id 2 again. -/
theorem create_after_deleting_highest_id_reissues_id {s : List Book} (h : Reachable s)
    (rt : Runtime) (p : String) (body : ReqBody) (b : Book) (title author : JVal)
    (hb : b ∈ s) (hm : idMatches p b = true) (hmax : ∀ c ∈ s, c.id ≤ b.id)
    (ht : body.title = some title) (ha : body.author = some author)
    (htt : title.truthy = true) (hat : author.truthy = true) :
    ∃ (rest : List Book) (nb : Book),
      deleteBook s p = (⟨200, .book b⟩, rest)
        ∧ createBook rt rest body = (⟨201, .book nb⟩, rest ++ [nb])
        ∧ nb.id = maxId rest + 1
        ∧ nb.id ≤ b.id
        ∧ (maxId rest + 1 = b.id → nb.id = b.id) := by
  obtain ⟨l, r, hs, hno⟩ := split_at_record_of_reachable h hb hm
  subst hs
  have hinc := idsIncreasing_of_reachable h
  have happ := List.pairwise_append.mp hinc
  have hr : r = [] := by
    rcases r with _ | ⟨c, r⟩
    · rfl
    · have h1 : b.id < c.id := (List.pairwise_cons.mp happ.2.1).1 c (List.mem_cons_self _ _)
      have h2 : c.id ≤ b.id := hmax c (by simp)
      omega
  subst hr
  have hl : ∀ c ∈ l, c.id < b.id := fun c hc => happ.2.2 c hc b (List.mem_cons_self _ _)
  have hdel : deleteBook (l ++ [b]) p = (⟨200, .book b⟩, l) := by
    have := deleteBook_of_first_match l [] b
      (fun c hc => hno c (List.mem_append_left _ hc)) hm
    simpa using this
  have hlinc : IdsIncreasing l := happ.1
  have hpos : 0 < b.id := ids_pos_of_reachable h b hb
  have hlt := maxId_lt hpos l hl
  refine ⟨l, specCreated rt l body title author, hdel,
    createBook_eq_specCreated hlinc rt body title author ht ha htt hat, ?_, ?_, ?_⟩
  · exact specNextId_eq_maxId_succ l
  · show specNextId l ≤ b.id
    rw [specNextId_eq_maxId_succ]
    omega
  · intro he
    show specNextId l = b.id
    rw [specNextId_eq_maxId_succ]
    exact he

theorem create_after_deleting_highest_id_reissues_id_witness :
    ∃ (rest : List Book) (nb : Book),
      deleteBook (seedBooks 0 0) "2"
          = (⟨200, .book ⟨2, .str "The Alchemist", .str "Paulo Coelho", 0, .bool true,
              .str "completed"⟩⟩, rest)
        ∧ createBook sampleRuntime rest
            { title := some (.str "Dune"), author := some (.str "Herbert") }
          = (⟨201, .book nb⟩, rest ++ [nb])
        ∧ nb.id = 2 := by
  obtain ⟨rest, nb, hd, hc, _, _, hid⟩ :=
    create_after_deleting_highest_id_reissues_id (Reachable.seed 0 0) sampleRuntime "2"
      { title := some (.str "Dune"), author := some (.str "Herbert") }
      ⟨2, .str "The Alchemist", .str "Paulo Coelho", 0, .bool true, .str "completed"⟩
      (.str "Dune") (.str "Herbert") (by simp [seedBooks]) (by decide)
      (by simp [seedBooks]) rfl rfl rfl rfl
  have hrest : rest = [⟨1, .str "1984", .str "George Orwell", 0, .bool false, .str "unread"⟩] := by
    have h0 : deleteBook (seedBooks 0 0) "2"
        = (⟨200, .book ⟨2, .str "The Alchemist", .str "Paulo Coelho", 0, .bool true,
            .str "completed"⟩⟩,
          [⟨1, .str "1984", .str "George Orwell", 0, .bool false, .str "unread"⟩]) := by decide
    rw [h0] at hd
    exact (Prod.mk.inj hd).2.symm
  refine ⟨rest, nb, hd, hc, hid ?_⟩
  rw [hrest]
  decide


theorem listBooks_plain (rt : Runtime) (s : List Book) :
    listBooks rt s {} = (⟨200, .listing s.length 1 s.length s⟩, s) := by
  have hstep : sortStep rt {} (filteredSet rt s {}) = some s := by
    simp [sortStep, filteredSet]
  exact listBooks_unpaged hstep rfl rfl

theorem handle_get_store (rt : Runtime) (s : List Book) (req : Request)
    (hget : req.method = .GET) : (handle rt s req).2 = s := by
  rcases hr : routes.find? (routeMatches req) with _ | r
  · simp [handle, hr]
  · have hmatch : routeMatches req r = true := List.find?_some hr
    have hmem : r ∈ routes := List.mem_of_find?_eq_some hr
    have hmethod : r.method = .GET := by
      simp only [routeMatches, Bool.and_eq_true, decide_eq_true_eq] at hmatch
      rw [hmatch.1, hget]
    simp only [handle, hr]
    simp only [routes, List.mem_cons, List.mem_singleton, List.not_mem_nil, or_false] at hmem
    rcases hmem with rfl | rfl | rfl | rfl | rfl | rfl | rfl | rfl | rfl | rfl | rfl
    · exact listBooks_store _ _ _
    · exact getBook_store _ _
    · exact searchBooks_store _ _ _
    · exact recommend_store _ _
    · exact stats_store _
    all_goals exact absurd hmethod (by decide)

/-- C19. The list, get-by-id, search, recommend and stats operations leave the
store as it was for every request, and so does every `GET` request through the
router.  In particular a list request with any `sortBy` sorts a copy: a list
request without parameters that follows it is answered as on the original store,
with all records in insertion order. -/
theorem read_operations_leave_store_unchanged (rt : Runtime) (s : List Book) (q q2 : Query)
    (p : String) :
    (listBooks rt s q).2 = s
      ∧ (getBook s p).2 = s
      ∧ (searchBooks rt s q).2 = s
      ∧ (recommend rt s).2 = s
      ∧ (stats s).2 = s
      ∧ listBooks rt (listBooks rt s q).2 q2 = listBooks rt s q2
      ∧ listBooks rt (listBooks rt s q).2 {} = (⟨200, .listing s.length 1 s.length s⟩, s)
      ∧ (∀ req : Request, req.method = .GET → (handle rt s req).2 = s) := by
  refine ⟨listBooks_store rt s q, getBook_store s p, searchBooks_store rt s q,
    recommend_store rt s, stats_store s, ?_, ?_, handle_get_store rt s⟩
  · rw [listBooks_store]
  · rw [listBooks_store]
    exact listBooks_plain rt s

theorem read_operations_leave_store_unchanged_witness :
    listBooks sampleRuntime (seedBooks 0 0) { sortBy := some "title" }
        = (⟨200, .listing 2 1 2
              [⟨1, .str "1984", .str "George Orwell", 0, .bool false, .str "unread"⟩,
               ⟨2, .str "The Alchemist", .str "Paulo Coelho", 0, .bool true, .str "completed"⟩]⟩,
            seedBooks 0 0)
      ∧ (handle sampleRuntime (seedBooks 0 0)
          ⟨.GET, ["books"], { sortBy := some "author" }, {}⟩).2 = seedBooks 0 0
      ∧ listBooks sampleRuntime (listBooks sampleRuntime (seedBooks 0 0)
          { sortBy := some "author" }).2 {}
        = (⟨200, .listing 2 1 2 (seedBooks 0 0)⟩, seedBooks 0 0) :=
  ⟨by decide,
    (read_operations_leave_store_unchanged sampleRuntime (seedBooks 0 0)
      { sortBy := some "author" } {} "1").2.2.2.2.2.2.2 _ rfl,
    (read_operations_leave_store_unchanged sampleRuntime (seedBooks 0 0)
      { sortBy := some "author" } {} "1").2.2.2.2.2.2.1⟩

end BooksApi
